import Mathlib

/-!
Verification development for the ktails concurrency/state-aggregation core.

Shallow embedding of:
* the Resource Store (`internal/state`: `AppState`, `Snapshot`, `AddContext`,
  `RemoveContext`, `SetDeployments`, `SetPods`, `SetError`, `flattenRows`, …);
* the Backend Registry (`internal/k8s`: `Client.GetClientForContext` with its
  double-checked read/write-lock discipline);
* the Stream Router (`internal/tui/commands.go`: `startLogStreamForClientCmd`,
  `continueLogStreamCmd`, and the `LogLineMsg` case of the update loop);
* the log pane ring buffer (`internal/tui/pane.go`: `Pane.AddLogLine`).

Go maps are embedded as association lists with unique keys.  Wherever the Go
code *iterates* a map to build an ordered list (`flattenRows`), the iteration
order is taken as an explicit parameter constrained to be a permutation of the
map's keys, because the Go specification leaves map iteration order
unspecified.  Map-valued results (where iteration order cannot be observed
through lookups) are built in a fixed canonical order.
-/

namespace KT

/-- `table.Row` is `[]string`: one row of display cells. -/
abbrev Row := List String

/-! ### Go map operations on association lists -/

/-- Go `m[k] = v`: update the value for an existing key in place, otherwise
add a new binding.  Embedding note: new keys go to the end of the list so the
list order records insertion order; Go itself does not expose any order. -/
def mapInsert {κ α : Type} [BEq κ] : List (κ × α) → κ → α → List (κ × α)
  | [], k, v => [(k, v)]
  | p :: rest, k, v =>
      if p.1 == k then (k, v) :: rest else p :: mapInsert rest k v

/-- Go `delete(m, k)`. -/
def mapErase {κ α : Type} [BEq κ] : List (κ × α) → κ → List (κ × α)
  | [], _ => []
  | p :: rest, k =>
      if p.1 == k then mapErase rest k else p :: mapErase rest k

/-- Go `v, ok := m[k]` (the `ok` form). -/
def mapLookup {κ α : Type} [BEq κ] : List (κ × α) → κ → Option α
  | [], _ => none
  | p :: rest, k => if p.1 == k then some p.2 else mapLookup rest k

/-- The key set of a Go map (as the list of keys of the association list). -/
def mapKeys {κ α : Type} (m : List (κ × α)) : List κ :=
  m.map (fun p => p.1)

/-! ### Resource Store: `AppState` (package `state`, `src/unnamed/part_001`) -/

/-- `state.AppState`.  The `sync.RWMutex` field is not data; every method of
the source acquires it for its whole body, so each method is embedded as one
atomic state transformation.  Go nil slices are embedded as `[]` (the code
never produces a non-nil empty slice for the cached aggregates: `flattenRows`
and `cloneRows` return nil exactly on empty results). -/
structure AppState where
  SelectedContexts : List (String × String)
  Deployments : List (String × List Row)
  Pods : List (String × List Row)
  LoadingDeployments : List (String × Bool)
  LoadingPods : List (String × Bool)
  Errors : List (String × String)
  cachedAllDeployments : List Row
  cachedAllPods : List Row
  deploymentsDirty : Bool
  podsDirty : Bool
deriving Repr, DecidableEq

/-- `state.NewAppState`. -/
def NewAppState : AppState :=
  { SelectedContexts := []
    Deployments := []
    Pods := []
    LoadingDeployments := []
    LoadingPods := []
    Errors := []
    cachedAllDeployments := []
    cachedAllPods := []
    deploymentsDirty := true
    podsDirty := true }

/-- `state.cloneRows`: deep copy of a row slice; returns nil for an empty
input, and copies each row (an empty row copies to nil).  On immutable Lean
lists a copy is the value itself, so only the nil-normalisation remains. -/
def cloneRows (rows : List Row) : List Row :=
  if rows.isEmpty then []
  else rows.map (fun row => if row.isEmpty then [] else row)

/-- `state.copyStringMap`: fresh map with the same entries (value-identical). -/
def copyStringMap (src : List (String × String)) : List (String × String) :=
  if src.isEmpty then [] else src

/-- `(*AppState).AddContext`. -/
def AppState.AddContext (a : AppState) (context ns : String) : AppState :=
  { a with
    SelectedContexts := mapInsert a.SelectedContexts context ns
    Deployments :=
      if (mapLookup a.Deployments context).isSome then a.Deployments
      else mapInsert a.Deployments context []
    Pods :=
      if (mapLookup a.Pods context).isSome then a.Pods
      else mapInsert a.Pods context []
    deploymentsDirty := true
    podsDirty := true
    cachedAllDeployments := []
    cachedAllPods := [] }

/-- `(*AppState).SetDeployments`. -/
def AppState.SetDeployments (a : AppState) (context : String) (rows : List Row) :
    AppState :=
  { a with
    Deployments := mapInsert a.Deployments context (cloneRows rows)
    LoadingDeployments := mapInsert a.LoadingDeployments context false
    Errors := mapErase a.Errors context
    deploymentsDirty := true
    cachedAllDeployments := [] }

/-- `(*AppState).SetPods`.  The source comment reads: "Don't delete errors
here - only clear if both deployments AND pods succeed", so `Errors` is left
untouched. -/
def AppState.SetPods (a : AppState) (context : String) (rows : List Row) :
    AppState :=
  { a with
    Pods := mapInsert a.Pods context (cloneRows rows)
    LoadingPods := mapInsert a.LoadingPods context false
    podsDirty := true
    cachedAllPods := [] }

/-- `(*AppState).SetLoading`. -/
def AppState.SetLoading (a : AppState) (context : String) (loading : Bool) :
    AppState :=
  { a with LoadingDeployments := mapInsert a.LoadingDeployments context loading }

/-- `(*AppState).SetLoadingPods`. -/
def AppState.SetLoadingPods (a : AppState) (context : String) (loading : Bool) :
    AppState :=
  { a with LoadingPods := mapInsert a.LoadingPods context loading }

/-- `(*AppState).SetError`. -/
def AppState.SetError (a : AppState) (context err : String) : AppState :=
  { a with
    Errors := mapInsert a.Errors context err
    LoadingDeployments := mapInsert a.LoadingDeployments context false
    LoadingPods := mapInsert a.LoadingPods context false }

/-- `(*AppState).RemoveContext`. -/
def AppState.RemoveContext (a : AppState) (context : String) : AppState :=
  { a with
    SelectedContexts := mapErase a.SelectedContexts context
    Deployments := mapErase a.Deployments context
    Pods := mapErase a.Pods context
    LoadingDeployments := mapErase a.LoadingDeployments context
    LoadingPods := mapErase a.LoadingPods context
    Errors := mapErase a.Errors context
    deploymentsDirty := true
    podsDirty := true
    cachedAllDeployments := []
    cachedAllPods := [] }

/-- `(*AppState).ClearErrors`. -/
def AppState.ClearErrors (a : AppState) : AppState :=
  { a with Errors := [] }

/-- `(*AppState).combinedLoadingStates`: for each selected context,
`LoadingDeployments[ctx] || LoadingPods[ctx]` (Go map reads default to
`false` for absent keys).  The result is a map, whose value is independent of
the order its entries are produced in, so the embedding builds it in the
canonical selection-list order. -/
def AppState.combinedLoadingStates (a : AppState) : List (String × Bool) :=
  a.SelectedContexts.map (fun p =>
    (p.1, ((mapLookup a.LoadingDeployments p.1).getD false
        || (mapLookup a.LoadingPods p.1).getD false)))

/-- `state.flattenRows`: `for context := range selected { all = append(all,
clones of rowsByContext[context]...) }`.  Go map iteration order is
unspecified, so the key order the runtime chooses for this call is the
explicit parameter `order`; wherever the function is invoked below, `order`
is constrained to be a permutation of `selected`'s keys.  The per-row
`make`/`copy` clone is the identity on immutable values. -/
def flattenRows (selected : List (String × String)) (order : List String)
    (rowsByContext : List (String × List Row)) : List Row :=
  if selected.isEmpty then []
  else
    order.foldl (fun all context =>
      match mapLookup rowsByContext context with
      | none => all
      | some rows => all ++ rows) []

/-- `state.Snapshot`: the read-only view returned by `(*AppState).Snapshot`. -/
structure Snapshot where
  SelectedContexts : List (String × String)
  LoadingStates : List (String × Bool)
  Errors : List (String × String)
  Deployments : List Row
  Pods : List Row
deriving Repr, DecidableEq

/-- The `Snapshot{...}` struct literal built (with the lock held) from the
current state in both branches of `(*AppState).Snapshot`. -/
def AppState.snapshotOf (a : AppState) : Snapshot :=
  { SelectedContexts := copyStringMap a.SelectedContexts
    LoadingStates := a.combinedLoadingStates
    Errors := copyStringMap a.Errors
    Deployments := cloneRows a.cachedAllDeployments
    Pods := cloneRows a.cachedAllPods }

/-- The first guarded block of `(*AppState).Snapshot`'s write-locked slow
path: `if a.deploymentsDirty || a.cachedAllDeployments == nil {
a.cachedAllDeployments = flattenRows(…); a.deploymentsDirty = false }`. -/
def recomputeDeployments (a : AppState) (ordD : List String) : AppState :=
  if a.deploymentsDirty || a.cachedAllDeployments.isEmpty then
    { a with
      cachedAllDeployments := flattenRows a.SelectedContexts ordD a.Deployments
      deploymentsDirty := false }
  else a

/-- The second guarded block of the slow path, for the pods aggregate. -/
def recomputePods (a : AppState) (ordP : List String) : AppState :=
  if a.podsDirty || a.cachedAllPods.isEmpty then
    { a with
      cachedAllPods := flattenRows a.SelectedContexts ordP a.Pods
      podsDirty := false }
  else a

/-- `(*AppState).Snapshot`.  Returns the snapshot together with the updated
state, because the method mutates the cache fields.  `ordD` / `ordP` are the
map iteration orders the Go runtime would pick for the two `flattenRows`
calls (the slow path recomputes at most one aggregate per kind, exactly when
that kind is dirty or its cache is nil). -/
def AppState.Snapshot (a : AppState) (ordD ordP : List String) :
    KT.Snapshot × AppState :=
  let deploymentsClean := !a.deploymentsDirty && !a.cachedAllDeployments.isEmpty
  let podsClean := !a.podsDirty && !a.cachedAllPods.isEmpty
  if deploymentsClean && podsClean then
    (a.snapshotOf, a)
  else
    let a2 := recomputePods (recomputeDeployments a ordD) ordP
    (a2.snapshotOf, a2)

/-- `(*AppState).GetAllDeployments`: `return a.Snapshot().Deployments`. -/
def AppState.GetAllDeployments (a : AppState) (ordD ordP : List String) :
    List Row × AppState :=
  let s := a.Snapshot ordD ordP
  (s.1.Deployments, s.2)

/-! ### Backend Registry (`k8s.Client`, `src/unnamed/part_011`)

`Client.GetClientForContext` guards `clientsByContext` with an `RWMutex`:
a read-locked fast-path lookup, then a write-locked section that re-checks
the cache ("double-checked") and otherwise calls `createClientForContext`
(build clientset + `ServerVersion` health probe) and caches the result on
success.  Construction happens *inside* the write lock, so construction
attempts for the registry are serialized.

`createClientForContext` talks to an external cluster; its outcome is
modelled by an oracle `outcome : Nat → Except String Nat` giving the result
(error message or clientset identity) of the k-th construction attempt
overall.  `attempts` counts the construction attempts performed. -/

/-- The registry's mutable state: the handle cache plus the attempt counter
used to index the construction oracle. -/
structure RegistryState where
  clientsByContext : List (String × Nat)
  attempts : Nat
deriving Repr, DecidableEq

/-- `(*Client).GetClientForContext`, executed by a single caller (the
read-locked check and the write-locked double-check collapse when no other
caller intervenes): return the cached client if present, otherwise run
`createClientForContext` (one oracle consultation); on error return it and
cache nothing, on success cache and return the new client. -/
def GetClientForContext (outcome : Nat → Except String Nat)
    (s : RegistryState) (contextName : String) :
    Except String Nat × RegistryState :=
  match mapLookup s.clientsByContext contextName with
  | some client => (Except.ok client, s)
  | none =>
    match outcome s.attempts with
    | Except.error e => (Except.error e, { s with attempts := s.attempts + 1 })
    | Except.ok client =>
      (Except.ok client,
        { clientsByContext := mapInsert s.clientsByContext contextName client
          attempts := s.attempts + 1 })

/-- Equality of `(clientset, error)` results is decidable. -/
instance {ε α : Type} [DecidableEq ε] [DecidableEq α] :
    DecidableEq (Except ε α) := fun a b =>
  match a, b with
  | Except.error x, Except.error y =>
    if h : x = y then isTrue (by rw [h])
    else isFalse (by intro hc; cases hc; exact h rfl)
  | Except.error _, Except.ok _ => isFalse (by intro hc; cases hc)
  | Except.ok _, Except.error _ => isFalse (by intro hc; cases hc)
  | Except.ok x, Except.ok y =>
    if h : x = y then isTrue (by rw [h])
    else isFalse (by intro hc; cases hc; exact h rfl)

/-- Where one concurrent caller of `GetClientForContext` stands:
before its read-locked cache check, waiting for / inside the write-locked
section, or finished with a result. -/
inductive CallerPhase where
  | fastCheck
  | lockedSection
  | done (result : Except String Nat)
deriving Repr, DecidableEq

/-- Interleaving model of many goroutines calling
`GetClientForContext(name)` concurrently for the same `name`: the shared
cache and attempt counter, plus each caller's phase. -/
structure RegSystem where
  clientsByContext : List (String × Nat)
  attempts : Nat
  callers : List CallerPhase
deriving Repr, DecidableEq

/-- `n` concurrent callers about to enter `GetClientForContext` on a fresh
registry. -/
def regInit (n : Nat) : RegSystem :=
  { clientsByContext := [], attempts := 0
    callers := List.replicate n CallerPhase.fastCheck }

/-- One scheduler step: caller `i` runs its next atomic section.  The
read-locked fast path is one atomic step (a map read under `RLock`); the
whole write-locked section (double-check, construction, caching) is one
atomic step, because the mutex excludes every other caller for its
duration. -/
def regStep (outcome : Nat → Except String Nat) (name : String)
    (sys : RegSystem) (i : Nat) : RegSystem :=
  match sys.callers.get? i with
  | none => sys
  | some CallerPhase.fastCheck =>
    match mapLookup sys.clientsByContext name with
    | some client =>
      { sys with callers := sys.callers.set i (CallerPhase.done (Except.ok client)) }
    | none => { sys with callers := sys.callers.set i CallerPhase.lockedSection }
  | some CallerPhase.lockedSection =>
    match mapLookup sys.clientsByContext name with
    | some client =>
      { sys with callers := sys.callers.set i (CallerPhase.done (Except.ok client)) }
    | none =>
      match outcome sys.attempts with
      | Except.error e =>
        { sys with
          attempts := sys.attempts + 1
          callers := sys.callers.set i (CallerPhase.done (Except.error e)) }
      | Except.ok client =>
        { clientsByContext := mapInsert sys.clientsByContext name client
          attempts := sys.attempts + 1
          callers := sys.callers.set i (CallerPhase.done (Except.ok client)) }
  | some (CallerPhase.done _) => sys

/-- Run a schedule (a list of caller indices, each taking one step). -/
def regRun (outcome : Nat → Except String Nat) (name : String)
    (sys : RegSystem) (sched : List Nat) : RegSystem :=
  sched.foldl (regStep outcome name) sys

/-! ### Log panes (`internal/tui/pane.go`) -/

/-- `tui.Pane`, restricted to the fields the verified fragment reads or
writes: the retained log lines and the retention bound.  The remaining
fields (viewport, search input, pod metadata, status, timestamps) belong to
rendering and are not touched by the embedded operations. -/
structure Pane where
  index : Nat
  logLines : List String
  maxLines : Nat
deriving Repr, DecidableEq

/-- `tui.NewPane`: fresh pane with no lines and `maxLines: 1000`. -/
def NewPane (index : Nat) : Pane :=
  { index := index, logLines := [], maxLines := 1000 }

/-- `(*Pane).AddLogLine`: append the line, then
`p.logLines = p.logLines[len(p.logLines)-p.maxLines:]` when the bound is
exceeded (the `lastUpdate`/viewport updates are rendering-only). -/
def Pane.AddLogLine (p : Pane) (line : String) : Pane :=
  let logLines := p.logLines ++ [line]
  if logLines.length > p.maxLines then
    { p with logLines := logLines.drop (logLines.length - p.maxLines) }
  else
    { p with logLines := logLines }

/-! ### Stream Router (`internal/tui/commands.go` and the update loop)

`startLogStreamForClientCmd(paneIndex, …)` makes a fresh buffered channel,
stores it in the package-level `activeStreamChans[paneIndex]`, and spawns a
producer goroutine that writes `LogLineMsg{PaneIndex: paneIndex, Line: …}`
into *that* channel for each line it reads (there is no cancellation of a
previous producer and no generation counter anywhere in the package).
`continueLogStreamCmd(paneIndex)` is a command that, when the runtime
executes it on its own goroutine, performs **two separate steps**:
first `ch := activeStreamChans[paneIndex]` (capturing whatever channel the
map holds at that instant; nil returns nil), then, possibly much later,
the blocking receive `msg, ok := <-ch` on the *captured* channel.  The
update loop runs concurrently with these command goroutines, so a pane
restart can land between a command's lookup and its receive; the embedding
therefore models the two steps as two separate actions (`contLookup`,
`contReceive`) with a scheduling point between them.  The update loop
(`updateViewing`) handles `LogLineMsg` by
`if msg.PaneIndex >= 0 && msg.PaneIndex < 2 { m.panes[msg.PaneIndex].AddLogLine(msg.Line) }`
(pane indices are embedded as `Nat`, so the `>= 0` half is automatic; the
`Timestamp` field is render-only and omitted).  The `ErrorMsg` /
`StreamEndedMsg` paths are outside the claims verified here and are not
embedded. -/

/-- `tui.LogLineMsg` (the message kind the verified fragment routes). -/
inductive Msg where
  | LogLineMsg (PaneIndex : Nat) (Line : String)
deriving Repr, DecidableEq

/-- One live channel: its identity, the pane index its producer goroutine
captured, and its buffered messages (FIFO). -/
structure ChanState where
  id : Nat
  paneIndex : Nat
  buffer : List Msg
deriving Repr, DecidableEq

/-- The stream-router system: the channel allocator, the package-level
`activeStreamChans` map, the live channels, the channels captured by
in-progress `continueLogStreamCmd` executions whose blocking receive is
still pending (`readers`), the messages already returned by executed
commands but not yet consumed by the update loop (`inflight` — the runtime
gives no ordering between results of different commands), and the two
panes. -/
structure StreamSys where
  nextChan : Nat
  activeStreamChans : List (Nat × Nat)
  channels : List ChanState
  readers : List Nat
  inflight : List Msg
  panes : List Pane
deriving Repr, DecidableEq

/-- Initial system: no streams, no pending reads, two empty panes. -/
def sysInit : StreamSys :=
  { nextChan := 0, activeStreamChans := [], channels := [], readers := []
    inflight := [], panes := [NewPane 0, NewPane 1] }

/-- The schedulable events of the stream router. -/
inductive SysAction where
  | startLogStream (paneIndex : Nat)
  | producerEmit (chanId : Nat) (line : String)
  | contLookup (paneIndex : Nat)
  | contReceive (k : Nat)
  | reduce (k : Nat)
deriving Repr, DecidableEq

/-- One event:
* `startLogStream p` — `startLogStreamForClientCmd` runs: a fresh channel is
  created and installed as `activeStreamChans[p]`, and its producer
  goroutine starts (the superseded channel, its producer, and any pending
  receive on it are left as they are);
* `producerEmit c line` — the producer goroutine writing to channel `c`
  sends `LogLineMsg{PaneIndex: <its captured pane>, Line: line}`;
* `contLookup p` — a dispatched `continueLogStreamCmd(p)` executes its
  first step, `ch := activeStreamChans[paneIndex]`: it captures whatever
  channel the map holds *now* and becomes a pending reader of it (a nil
  channel makes the command return nil: no reader);
* `contReceive k` — pending reader `k` completes its second step, the
  blocking `msg, ok := <-ch` on its captured channel: one buffered message
  moves to the in-flight set (an empty buffer keeps the receive blocked:
  no state change);
* `reduce k` — the update loop consumes in-flight message `k` and runs the
  `LogLineMsg` case of `updateViewing`. -/
def sysStep (sys : StreamSys) (act : SysAction) : StreamSys :=
  match act with
  | SysAction.startLogStream p =>
    { sys with
      nextChan := sys.nextChan + 1
      activeStreamChans := mapInsert sys.activeStreamChans p sys.nextChan
      channels := sys.channels ++ [⟨sys.nextChan, p, []⟩] }
  | SysAction.producerEmit c line =>
    { sys with
      channels := sys.channels.map (fun ch =>
        if ch.id == c then
          { ch with buffer := ch.buffer ++ [Msg.LogLineMsg ch.paneIndex line] }
        else ch) }
  | SysAction.contLookup p =>
    match mapLookup sys.activeStreamChans p with
    | none => sys
    | some c => { sys with readers := sys.readers ++ [c] }
  | SysAction.contReceive k =>
    match sys.readers.get? k with
    | none => sys
    | some c =>
      match sys.channels.find? (fun ch => ch.id == c) with
      | none => sys
      | some ch =>
        match ch.buffer with
        | [] => sys
        | m :: rest =>
          { sys with
            readers := sys.readers.eraseIdx k
            channels := sys.channels.map (fun x =>
              if x.id == c then { x with buffer := rest } else x)
            inflight := sys.inflight ++ [m] }
  | SysAction.reduce k =>
    match sys.inflight.get? k with
    | none => sys
    | some (Msg.LogLineMsg p line) =>
      let sys1 := { sys with inflight := sys.inflight.eraseIdx k }
      if p < 2 then
        match sys1.panes.get? p with
        | some pane => { sys1 with panes := sys1.panes.set p (pane.AddLogLine line) }
        | none => sys1
      else sys1

/-- Run a sequence of events. -/
def sysRun (sys : StreamSys) (acts : List SysAction) : StreamSys :=
  acts.foldl sysStep sys

/-! ### Helper lemmas about the Go map embedding -/

theorem lookup_mapInsert_self {κ α : Type} [BEq κ] [LawfulBEq κ]
    (m : List (κ × α)) (k : κ) (v : α) :
    mapLookup (mapInsert m k v) k = some v := by
  induction m with
  | nil => simp [mapInsert, mapLookup]
  | cons p rest ih =>
      by_cases h : p.1 = k
      · simp [mapInsert, mapLookup, h]
      · simp only [mapInsert, mapLookup, beq_iff_eq, h, if_false]
        simpa [mapLookup, h] using ih

theorem lookup_mapInsert_ne {κ α : Type} [BEq κ] [LawfulBEq κ]
    (m : List (κ × α)) (k j : κ) (v : α) (h : ¬ j = k) :
    mapLookup (mapInsert m k v) j = mapLookup m j := by
  have h2 : ¬ k = j := fun hh => h hh.symm
  induction m with
  | nil => simp [mapInsert, mapLookup, h2]
  | cons p rest ih =>
      by_cases hp : p.1 = k
      · subst hp
        simp [mapInsert, mapLookup, h2]
      · simp only [mapInsert, beq_iff_eq, hp, if_false]
        by_cases hj : p.1 = j <;> simp [mapLookup, hj, ih]

theorem lookup_mapErase_self {κ α : Type} [BEq κ] [LawfulBEq κ]
    (m : List (κ × α)) (k : κ) :
    mapLookup (mapErase m k) k = none := by
  induction m with
  | nil => simp [mapErase, mapLookup]
  | cons p rest ih =>
      by_cases hp : p.1 = k <;> simp [mapErase, mapLookup, hp, ih]

theorem lookup_mapErase_ne {κ α : Type} [BEq κ] [LawfulBEq κ]
    (m : List (κ × α)) (k j : κ) (h : ¬ j = k) :
    mapLookup (mapErase m k) j = mapLookup m j := by
  have h2 : ¬ k = j := fun hh => h hh.symm
  induction m with
  | nil => simp [mapErase, mapLookup]
  | cons p rest ih =>
      by_cases hp : p.1 = k
      · subst hp
        simp [mapErase, mapLookup, h2, ih]
      · by_cases hj : p.1 = j <;>
          simp [mapErase, mapLookup, beq_iff_eq, hp, hj, h, h2, ih]

theorem mapInsert_mapInsert_same {κ α : Type} [BEq κ] [LawfulBEq κ]
    (m : List (κ × α)) (k : κ) (v w : α) :
    mapInsert (mapInsert m k v) k w = mapInsert m k w := by
  induction m with
  | nil => simp [mapInsert]
  | cons p rest ih =>
      by_cases hp : p.1 = k <;> simp [mapInsert, hp, ih]

theorem cloneRows_eq (rows : List Row) : cloneRows rows = rows := by
  unfold cloneRows
  by_cases h : rows.isEmpty
  · simp_all [List.isEmpty_iff]
  · simp only [h, if_false]
    rw [show (rows.map fun row => if row.isEmpty then [] else row) = rows.map id by
      apply List.map_congr_left
      intro row _
      by_cases hr : row.isEmpty
      · simp_all [List.isEmpty_iff]
      · simp [hr]]
    simp

theorem copyStringMap_eq (m : List (String × String)) : copyStringMap m = m := by
  unfold copyStringMap
  by_cases h : m.isEmpty <;> simp_all [List.isEmpty_iff]

/-! ### Helper lemmas about the two recompute blocks and `Snapshot` -/

@[simp] theorem rd_SelectedContexts (a : AppState) (o : List String) :
    (recomputeDeployments a o).SelectedContexts = a.SelectedContexts := by
  unfold recomputeDeployments; split <;> rfl

@[simp] theorem rd_Deployments (a : AppState) (o : List String) :
    (recomputeDeployments a o).Deployments = a.Deployments := by
  unfold recomputeDeployments; split <;> rfl

@[simp] theorem rd_Pods (a : AppState) (o : List String) :
    (recomputeDeployments a o).Pods = a.Pods := by
  unfold recomputeDeployments; split <;> rfl

@[simp] theorem rd_LoadingDeployments (a : AppState) (o : List String) :
    (recomputeDeployments a o).LoadingDeployments = a.LoadingDeployments := by
  unfold recomputeDeployments; split <;> rfl

@[simp] theorem rd_LoadingPods (a : AppState) (o : List String) :
    (recomputeDeployments a o).LoadingPods = a.LoadingPods := by
  unfold recomputeDeployments; split <;> rfl

@[simp] theorem rd_Errors (a : AppState) (o : List String) :
    (recomputeDeployments a o).Errors = a.Errors := by
  unfold recomputeDeployments; split <;> rfl

@[simp] theorem rd_podsDirty (a : AppState) (o : List String) :
    (recomputeDeployments a o).podsDirty = a.podsDirty := by
  unfold recomputeDeployments; split <;> rfl

@[simp] theorem rd_cachedAllPods (a : AppState) (o : List String) :
    (recomputeDeployments a o).cachedAllPods = a.cachedAllPods := by
  unfold recomputeDeployments; split <;> rfl

@[simp] theorem rd_deploymentsDirty (a : AppState) (o : List String) :
    (recomputeDeployments a o).deploymentsDirty = false := by
  unfold recomputeDeployments
  split
  · rfl
  · rename_i h
    simp only [Bool.or_eq_true, not_or, Bool.not_eq_true] at h
    exact h.1

theorem rd_cache (a : AppState) (o : List String) :
    (recomputeDeployments a o).cachedAllDeployments
        = flattenRows a.SelectedContexts o a.Deployments ∨
    ((recomputeDeployments a o).cachedAllDeployments = a.cachedAllDeployments ∧
      a.deploymentsDirty = false ∧ ¬ a.cachedAllDeployments = []) := by
  unfold recomputeDeployments
  split
  · left; rfl
  · right
    rename_i h
    simp only [Bool.or_eq_true, not_or, Bool.not_eq_true] at h
    exact ⟨rfl, h.1, by simpa [List.isEmpty_iff] using h.2⟩

@[simp] theorem rp_SelectedContexts (a : AppState) (o : List String) :
    (recomputePods a o).SelectedContexts = a.SelectedContexts := by
  unfold recomputePods; split <;> rfl

@[simp] theorem rp_Deployments (a : AppState) (o : List String) :
    (recomputePods a o).Deployments = a.Deployments := by
  unfold recomputePods; split <;> rfl

@[simp] theorem rp_Pods (a : AppState) (o : List String) :
    (recomputePods a o).Pods = a.Pods := by
  unfold recomputePods; split <;> rfl

@[simp] theorem rp_LoadingDeployments (a : AppState) (o : List String) :
    (recomputePods a o).LoadingDeployments = a.LoadingDeployments := by
  unfold recomputePods; split <;> rfl

@[simp] theorem rp_LoadingPods (a : AppState) (o : List String) :
    (recomputePods a o).LoadingPods = a.LoadingPods := by
  unfold recomputePods; split <;> rfl

@[simp] theorem rp_Errors (a : AppState) (o : List String) :
    (recomputePods a o).Errors = a.Errors := by
  unfold recomputePods; split <;> rfl

@[simp] theorem rp_deploymentsDirtyEq (a : AppState) (o : List String) :
    (recomputePods a o).deploymentsDirty = a.deploymentsDirty := by
  unfold recomputePods; split <;> rfl

@[simp] theorem rp_cachedAllDeployments (a : AppState) (o : List String) :
    (recomputePods a o).cachedAllDeployments = a.cachedAllDeployments := by
  unfold recomputePods; split <;> rfl

@[simp] theorem rp_podsDirty (a : AppState) (o : List String) :
    (recomputePods a o).podsDirty = false := by
  unfold recomputePods
  split
  · rfl
  · rename_i h
    simp only [Bool.or_eq_true, not_or, Bool.not_eq_true] at h
    exact h.1

theorem rp_cache (a : AppState) (o : List String) :
    (recomputePods a o).cachedAllPods
        = flattenRows a.SelectedContexts o a.Pods ∨
    ((recomputePods a o).cachedAllPods = a.cachedAllPods ∧
      a.podsDirty = false ∧ ¬ a.cachedAllPods = []) := by
  unfold recomputePods
  split
  · left; rfl
  · right
    rename_i h
    simp only [Bool.or_eq_true, not_or, Bool.not_eq_true] at h
    exact ⟨rfl, h.1, by simpa [List.isEmpty_iff] using h.2⟩

/-- Either the fast read-locked path is taken (both aggregates clean:
nothing changes) or the slow path runs the two recompute blocks. -/
theorem snapshot_snd_cases (a : AppState) (o p : List String) :
    ((a.Snapshot o p).2 = a ∧ a.deploymentsDirty = false ∧
      ¬ a.cachedAllDeployments = [] ∧ a.podsDirty = false ∧
      ¬ a.cachedAllPods = []) ∨
    (a.Snapshot o p).2 = recomputePods (recomputeDeployments a o) p := by
  unfold AppState.Snapshot
  dsimp only
  split
  · rename_i h
    simp only [Bool.and_eq_true, Bool.not_eq_true'] at h
    refine Or.inl ⟨rfl, h.1.1, ?_, h.2.1, ?_⟩
    · simpa [List.isEmpty_iff] using h.1.2
    · simpa [List.isEmpty_iff] using h.2.2
  · exact Or.inr rfl

/-- The returned snapshot is always the struct literal built from the
returned state. -/
theorem snapshot_fst (a : AppState) (o p : List String) :
    (a.Snapshot o p).1 = (a.Snapshot o p).2.snapshotOf := by
  unfold AppState.Snapshot
  dsimp only
  split <;> rfl

@[simp] theorem snapshot_snd_SelectedContexts (a : AppState) (o p : List String) :
    (a.Snapshot o p).2.SelectedContexts = a.SelectedContexts := by
  rcases snapshot_snd_cases a o p with ⟨h, _⟩ | h <;> rw [h] <;> simp

@[simp] theorem snapshot_snd_Deployments (a : AppState) (o p : List String) :
    (a.Snapshot o p).2.Deployments = a.Deployments := by
  rcases snapshot_snd_cases a o p with ⟨h, _⟩ | h <;> rw [h] <;> simp

@[simp] theorem snapshot_snd_Pods (a : AppState) (o p : List String) :
    (a.Snapshot o p).2.Pods = a.Pods := by
  rcases snapshot_snd_cases a o p with ⟨h, _⟩ | h <;> rw [h] <;> simp

@[simp] theorem snapshot_snd_LoadingDeployments (a : AppState) (o p : List String) :
    (a.Snapshot o p).2.LoadingDeployments = a.LoadingDeployments := by
  rcases snapshot_snd_cases a o p with ⟨h, _⟩ | h <;> rw [h] <;> simp

@[simp] theorem snapshot_snd_LoadingPods (a : AppState) (o p : List String) :
    (a.Snapshot o p).2.LoadingPods = a.LoadingPods := by
  rcases snapshot_snd_cases a o p with ⟨h, _⟩ | h <;> rw [h] <;> simp

@[simp] theorem snapshot_snd_Errors (a : AppState) (o p : List String) :
    (a.Snapshot o p).2.Errors = a.Errors := by
  rcases snapshot_snd_cases a o p with ⟨h, _⟩ | h <;> rw [h] <;> simp

theorem snapshot_snd_dirty (a : AppState) (o p : List String) :
    (a.Snapshot o p).2.deploymentsDirty = false ∧
    (a.Snapshot o p).2.podsDirty = false := by
  rcases snapshot_snd_cases a o p with ⟨h, h1, _, h2, _⟩ | h
  · rw [h]; exact ⟨h1, h2⟩
  · rw [h]; simp

theorem combinedLoadingStates_congr (x y : AppState)
    (h1 : x.SelectedContexts = y.SelectedContexts)
    (h2 : x.LoadingDeployments = y.LoadingDeployments)
    (h3 : x.LoadingPods = y.LoadingPods) :
    x.combinedLoadingStates = y.combinedLoadingStates := by
  unfold AppState.combinedLoadingStates
  rw [h1, h2, h3]

/-! ### C9 — AddContext is idempotent -/

/-- **C9** (confirmed).  Calling `AddContext` twice in a row with the same
arguments leaves the Resource Store in the same observable state as calling
it once: the two states are equal outright. -/
theorem addContext_idempotent (a : AppState) (c ns : String) :
    (a.AddContext c ns).AddContext c ns = a.AddContext c ns := by
  unfold AppState.AddContext
  by_cases hD : (mapLookup a.Deployments c).isSome <;>
    by_cases hP : (mapLookup a.Pods c).isSome <;>
      simp [hD, hP, lookup_mapInsert_self, mapInsert_mapInsert_same]

/-! ### C10 — AddContext on an already-tracked backend only updates the
namespace -/

/-- **C10** (confirmed).  When the backend already has table entries (as any
selected backend does), `AddContext` with a new namespace only updates the
stored namespace mapping: the deployment and pod tables, both loading maps
and the error map are left exactly as they were; rows are initialised to
empty only when the name has no entry yet (visible in `AddContext`'s
definition, whose table updates are guarded by the existence checks
discharged here). -/
theorem addContext_frame (a : AppState) (c ns : String)
    (hD : (mapLookup a.Deployments c).isSome)
    (hP : (mapLookup a.Pods c).isSome) :
    (a.AddContext c ns).SelectedContexts = mapInsert a.SelectedContexts c ns ∧
    (a.AddContext c ns).Deployments = a.Deployments ∧
    (a.AddContext c ns).Pods = a.Pods ∧
    (a.AddContext c ns).LoadingDeployments = a.LoadingDeployments ∧
    (a.AddContext c ns).LoadingPods = a.LoadingPods ∧
    (a.AddContext c ns).Errors = a.Errors := by
  simp [AppState.AddContext, hD, hP]

/-- Witness for C10 at a concrete store: backend `"x"` is tracked with
namespace `"ns1"` and re-added with namespace `"ns2"`. -/
theorem addContext_frame_witness :
    ((NewAppState.AddContext "x" "ns1").AddContext "x" "ns2").SelectedContexts
        = mapInsert (NewAppState.AddContext "x" "ns1").SelectedContexts "x" "ns2" ∧
    ((NewAppState.AddContext "x" "ns1").AddContext "x" "ns2").Deployments
        = (NewAppState.AddContext "x" "ns1").Deployments ∧
    ((NewAppState.AddContext "x" "ns1").AddContext "x" "ns2").Pods
        = (NewAppState.AddContext "x" "ns1").Pods ∧
    ((NewAppState.AddContext "x" "ns1").AddContext "x" "ns2").LoadingDeployments
        = (NewAppState.AddContext "x" "ns1").LoadingDeployments ∧
    ((NewAppState.AddContext "x" "ns1").AddContext "x" "ns2").LoadingPods
        = (NewAppState.AddContext "x" "ns1").LoadingPods ∧
    ((NewAppState.AddContext "x" "ns1").AddContext "x" "ns2").Errors
        = (NewAppState.AddContext "x" "ns1").Errors :=
  addContext_frame (NewAppState.AddContext "x" "ns1") "x" "ns2"
    (by decide) (by decide)

/-! ### C4 — SetRows semantics: SetPods does *not* clear the error -/

/-- **C4** (counterexample).  The claim states that a successful `SetPods`
"removes any previously recorded error for that name".  It does not: after
`SetError("alpha", "boom")`, a successful `SetPods("alpha", …)` leaves the
error in place (the source comment says "Don't delete errors here").
Only `SetDeployments` deletes the error. -/
theorem setPods_keeps_error_counterexample :
    mapLookup
      (((NewAppState.AddContext "alpha" "default").SetError "alpha" "boom").SetPods
        "alpha" [["p1", "Running"]]).Errors "alpha" = some "boom" := by
  decide

/-- **C4** (amended and confirmed).  `SetDeployments(name, rows)` replaces
the deployment rows for the name, clears the deployments-loading flag for
it, leaves the pod table untouched and removes any recorded error for the
name; `SetPods(name, rows)` replaces the pod rows, clears the pods-loading
flag, leaves the deployment table untouched and leaves the error map
entirely unchanged. -/
theorem setRows_effects (a : AppState) (c : String) (rows : List Row) :
    mapLookup (a.SetDeployments c rows).Deployments c = some rows ∧
    mapLookup (a.SetDeployments c rows).LoadingDeployments c = some false ∧
    mapLookup (a.SetDeployments c rows).Errors c = none ∧
    (a.SetDeployments c rows).Pods = a.Pods ∧
    mapLookup (a.SetPods c rows).Pods c = some rows ∧
    mapLookup (a.SetPods c rows).LoadingPods c = some false ∧
    (a.SetPods c rows).Deployments = a.Deployments ∧
    (a.SetPods c rows).Errors = a.Errors := by
  refine ⟨?_, ?_, ?_, rfl, ?_, ?_, rfl, rfl⟩ <;>
    simp [AppState.SetDeployments, AppState.SetPods, cloneRows_eq,
      lookup_mapInsert_self, lookup_mapErase_self]

/-! ### C8 — a failed construction caches nothing and is retried -/

/-- **C8** (confirmed).  When construction (or its health probe) fails,
`GetClientForContext` returns the error and installs nothing: the handle
cache is unchanged by the failed call, and a later call for the same name
misses the cache and performs a fresh construction attempt (the attempt
counter advances again, consuming the next oracle outcome). -/
theorem getClient_failure_caches_nothing (outcome : Nat → Except String Nat)
    (s : RegistryState) (name e : String)
    (hc : mapLookup s.clientsByContext name = none)
    (ho : outcome s.attempts = Except.error e) :
    (GetClientForContext outcome s name).1 = Except.error e ∧
    (GetClientForContext outcome s name).2.clientsByContext = s.clientsByContext ∧
    (GetClientForContext outcome s name).2.attempts = s.attempts + 1 ∧
    (GetClientForContext outcome (GetClientForContext outcome s name).2 name).2.attempts
      = s.attempts + 2 := by
  have h1 : GetClientForContext outcome s name
      = (Except.error e, { s with attempts := s.attempts + 1 }) := by
    unfold GetClientForContext
    rw [hc, ho]
  refine ⟨by rw [h1], by rw [h1], by rw [h1], ?_⟩
  rw [h1]
  unfold GetClientForContext
  simp only [hc]
  cases houtcome : outcome (s.attempts + 1) <;> simp

/-- Witness for C8: a fresh registry whose first two construction attempts
fail with "no route to host". -/
theorem getClient_failure_caches_nothing_witness :
    (GetClientForContext (fun _ => Except.error "no route to host")
        ⟨[], 0⟩ "prod").1 = Except.error "no route to host" ∧
    (GetClientForContext (fun _ => Except.error "no route to host")
        ⟨[], 0⟩ "prod").2.clientsByContext = ([] : List (String × Nat)) ∧
    (GetClientForContext (fun _ => Except.error "no route to host")
        ⟨[], 0⟩ "prod").2.attempts = 0 + 1 ∧
    (GetClientForContext (fun _ => Except.error "no route to host")
      (GetClientForContext (fun _ => Except.error "no route to host")
        ⟨[], 0⟩ "prod").2 "prod").2.attempts = 0 + 2 :=
  getClient_failure_caches_nothing (fun _ => Except.error "no route to host")
    ⟨[], 0⟩ "prod" "no route to host" rfl rfl

/-! ### C6 — the pane retains at most `maxLines` lines (a ring buffer) -/

/-- The most recent `n` elements of a list (what Go's
`l[len(l)-max:]` keeps). -/
def lastN {α : Type} (n : Nat) (l : List α) : List α :=
  l.drop (l.length - n)

theorem lastN_of_le {α : Type} {n : Nat} {l : List α} (h : l.length ≤ n) :
    lastN n l = l := by
  simp [lastN, Nat.sub_eq_zero_of_le h]

theorem lastN_length {α : Type} (n : Nat) (l : List α) :
    (lastN n l).length = min n l.length := by
  simp only [lastN, List.length_drop]
  omega

theorem lastN_append_of_le {α : Type} {n : Nat} {s : List α} (pre : List α)
    (h : n ≤ s.length) : lastN n (pre ++ s) = lastN n s := by
  unfold lastN
  have harith : (pre ++ s).length - n = pre.length + (s.length - n) := by
    simp only [List.length_append]
    omega
  rw [harith, List.drop_append]

theorem lastN_lastN_append {α : Type} (n : Nat) (l r : List α) :
    lastN n (lastN n l ++ r) = lastN n (l ++ r) := by
  by_cases hl : l.length ≤ n
  · rw [lastN_of_le hl]
  · have hlen : n ≤ (lastN n l ++ r).length := by
      simp only [List.length_append, lastN_length]
      omega
    have hsplit : l ++ r = List.take (l.length - n) l ++ (lastN n l ++ r) := by
      rw [← List.append_assoc]
      unfold lastN
      rw [List.take_append_drop]
    rw [hsplit, lastN_append_of_le _ hlen]

theorem addLogLine_logLines (p : Pane) (line : String) :
    (p.AddLogLine line).logLines = lastN p.maxLines (p.logLines ++ [line]) := by
  simp only [Pane.AddLogLine]
  split
  · rfl
  · rename_i h
    unfold lastN
    rw [Nat.sub_eq_zero_of_le (Nat.le_of_not_lt h), List.drop_zero]

theorem addLogLine_maxLines (p : Pane) (line : String) :
    (p.AddLogLine line).maxLines = p.maxLines := by
  simp only [Pane.AddLogLine]
  split <;> rfl

/-- **C6** (confirmed).  For every sequence of `AddLogLine` calls on a pane
whose retained lines are within its bound (as they are from `NewPane` on),
the retained line count never exceeds the configured `maxLines` (every
intermediate state is the final state of a prefix of the sequence, so the
equation covers each step), and the retained lines are exactly the most
recent `maxLines` lines — the oldest lines are the ones discarded. -/
theorem pane_ring_buffer (p : Pane) (lines : List String)
    (h : p.logLines.length ≤ p.maxLines) :
    (lines.foldl Pane.AddLogLine p).logLines.length ≤ p.maxLines ∧
    (lines.foldl Pane.AddLogLine p).logLines
      = lastN p.maxLines (p.logLines ++ lines) ∧
    (lines.foldl Pane.AddLogLine p).maxLines = p.maxLines := by
  have key : ∀ (ls : List String) (q : Pane), q.logLines.length ≤ q.maxLines →
      (ls.foldl Pane.AddLogLine q).logLines
          = lastN q.maxLines (q.logLines ++ ls) ∧
      (ls.foldl Pane.AddLogLine q).maxLines = q.maxLines := by
    intro ls
    induction ls with
    | nil =>
        intro q hq
        simpa using (lastN_of_le hq).symm
    | cons x xs ih =>
        intro q hq
        have hstep := addLogLine_logLines q x
        have hmax := addLogLine_maxLines q x
        have hq1 : (q.AddLogLine x).logLines.length ≤ (q.AddLogLine x).maxLines := by
          rw [hstep, hmax, lastN_length]
          omega
        have hrec := ih (q.AddLogLine x) hq1
        refine ⟨?_, by rw [List.foldl_cons, hrec.2, hmax]⟩
        rw [List.foldl_cons, hrec.1, hstep, hmax, lastN_lastN_append,
          List.append_assoc]
        rfl
  have hk := key lines p h
  refine ⟨?_, hk.1, hk.2⟩
  rw [hk.1, lastN_length]
  omega

/-- Witness for C6: a fresh pane fed two lines retains both (well under the
1000-line bound), in order. -/
theorem pane_ring_buffer_witness :
    ((["l1", "l2"].foldl Pane.AddLogLine (NewPane 0)).logLines.length
        ≤ (NewPane 0).maxLines) ∧
    (["l1", "l2"].foldl Pane.AddLogLine (NewPane 0)).logLines
        = lastN (NewPane 0).maxLines ((NewPane 0).logLines ++ ["l1", "l2"]) ∧
    (["l1", "l2"].foldl Pane.AddLogLine (NewPane 0)).maxLines
        = (NewPane 0).maxLines :=
  pane_ring_buffer (NewPane 0) ["l1", "l2"] (by decide)

/-! ### C1 — what the aggregated Snapshot rows are

The claim asserts the aggregate is the concatenation *in backend-selection
order*.  `flattenRows` iterates a Go map, whose iteration order is
unspecified (and in practice randomised per iteration), so the aggregate is
the concatenation of the same per-backend row blocks in an arbitrary
per-call order — not selection order. -/

/-- The operations the claim quantifies over: `SetRows`
(`SetDeployments`/`SetPods`), `AddBackend` (`AddContext`) and
`RemoveBackend` (`RemoveContext`). -/
inductive StoreOp where
  | addContext (context ns : String)
  | removeContext (context : String)
  | setDeployments (context : String) (rows : List Row)
  | setPods (context : String) (rows : List Row)
deriving Repr, DecidableEq

def applyStoreOp (a : AppState) : StoreOp → AppState
  | StoreOp.addContext c ns => a.AddContext c ns
  | StoreOp.removeContext c => a.RemoveContext c
  | StoreOp.setDeployments c rows => a.SetDeployments c rows
  | StoreOp.setPods c rows => a.SetPods c rows

def applyStoreOps (a : AppState) (ops : List StoreOp) : AppState :=
  ops.foldl applyStoreOp a

/-- Modelled from the spec claim's words: "the concatenation, in
backend-selection order, of the latest `SetRows` value for each
currently-selected backend".  The selection list is in the order backends
were added, and the table entry for a backend is its latest `SetRows` value
(`cloneRows` is the identity); a backend with no entry contributes
nothing. -/
def selectionOrderRows (selected : List (String × String))
    (rowsByContext : List (String × List Row)) : List Row :=
  (selected.map (fun p => (mapLookup rowsByContext p.1).getD [])).flatten

theorem flattenRows_eq_flatten (sel : List (String × String))
    (ord : List String) (rows : List (String × List Row)) :
    flattenRows sel ord rows =
      if sel.isEmpty then []
      else (ord.map (fun c => (mapLookup rows c).getD [])).flatten := by
  unfold flattenRows
  split
  · rfl
  · have key : ∀ (o : List String) (acc : List Row),
        o.foldl (fun all context =>
          match mapLookup rows context with
          | none => all
          | some r => all ++ r) acc
        = acc ++ (o.map (fun c => (mapLookup rows c).getD [])).flatten := by
      intro o
      induction o with
      | nil => intro acc; simp
      | cons c rest ih =>
          intro acc
          rw [List.foldl_cons]
          cases h : mapLookup rows c <;>
            simp [h, ih, List.append_assoc]
    simpa using key ord []

theorem storeOps_deploymentsDirty (ops : List StoreOp) :
    (applyStoreOps NewAppState ops).deploymentsDirty = true := by
  have key : ∀ (os : List StoreOp) (a : AppState), a.deploymentsDirty = true →
      (applyStoreOps a os).deploymentsDirty = true := by
    intro os
    induction os with
    | nil => intro a ha; exact ha
    | cons op rest ih =>
        intro a ha
        cases op <;> exact ih _ (by first | rfl | exact ha)
  exact key ops NewAppState rfl

theorem storeOps_podsDirty (ops : List StoreOp) :
    (applyStoreOps NewAppState ops).podsDirty = true := by
  have key : ∀ (os : List StoreOp) (a : AppState), a.podsDirty = true →
      (applyStoreOps a os).podsDirty = true := by
    intro os
    induction os with
    | nil => intro a ha; exact ha
    | cons op rest ih =>
        intro a ha
        cases op <;> exact ih _ (by first | rfl | exact ha)
  exact key ops NewAppState rfl

/-- On a dirty state (as left by any store mutation), `Snapshot` recomputes
the deployment aggregate from the current tables with the iteration order
the runtime picked. -/
theorem snapshot_deployments_of_dirty (a : AppState) (ordD ordP : List String)
    (h : a.deploymentsDirty = true) :
    (a.Snapshot ordD ordP).1.Deployments
      = flattenRows a.SelectedContexts ordD a.Deployments := by
  rw [snapshot_fst]
  rcases snapshot_snd_cases a ordD ordP with ⟨_, hclean, _⟩ | hslow
  · rw [h] at hclean; cases hclean
  · rw [hslow]
    unfold AppState.snapshotOf
    dsimp only
    rw [cloneRows_eq, rp_cachedAllDeployments]
    unfold recomputeDeployments
    rw [if_pos (by simp [h])]

theorem snapshot_pods_of_dirty (a : AppState) (ordD ordP : List String)
    (h : a.podsDirty = true) :
    (a.Snapshot ordD ordP).1.Pods
      = flattenRows a.SelectedContexts ordP a.Pods := by
  rw [snapshot_fst]
  rcases snapshot_snd_cases a ordD ordP with ⟨_, _, _, hclean, _⟩ | hslow
  · rw [h] at hclean; cases hclean
  · rw [hslow]
    unfold AppState.snapshotOf
    dsimp only
    rw [cloneRows_eq]
    unfold recomputePods
    rw [if_pos (by simp [h])]
    dsimp only
    rw [rd_SelectedContexts, rd_Pods]

/-- **C1** (counterexample).  Backends "a" then "b" are added, each given
one deployment row.  The Go runtime may iterate the selected-contexts map
in the order `["b", "a"]` (any permutation of the keys is admissible); the
resulting Snapshot rows are `[rb, ra]`, while the concatenation in
backend-selection order is `[ra, rb]`.  The aggregate is therefore *not*
(always) in selection-addition order, and is not stable across re-renders
either. -/
theorem snapshot_rows_not_selection_order :
    (["b", "a"].Perm (mapKeys (applyStoreOps NewAppState
        [StoreOp.addContext "a" "n1", StoreOp.addContext "b" "n2",
         StoreOp.setDeployments "a" [["ra"]],
         StoreOp.setDeployments "b" [["rb"]]]).SelectedContexts)) ∧
    ((applyStoreOps NewAppState
        [StoreOp.addContext "a" "n1", StoreOp.addContext "b" "n2",
         StoreOp.setDeployments "a" [["ra"]],
         StoreOp.setDeployments "b" [["rb"]]]).Snapshot
          ["b", "a"] ["b", "a"]).1.Deployments = [["rb"], ["ra"]] ∧
    selectionOrderRows
        (applyStoreOps NewAppState
          [StoreOp.addContext "a" "n1", StoreOp.addContext "b" "n2",
           StoreOp.setDeployments "a" [["ra"]],
           StoreOp.setDeployments "b" [["rb"]]]).SelectedContexts
        (applyStoreOps NewAppState
          [StoreOp.addContext "a" "n1", StoreOp.addContext "b" "n2",
           StoreOp.setDeployments "a" [["ra"]],
           StoreOp.setDeployments "b" [["rb"]]]).Deployments
      = [["ra"], ["rb"]] ∧
    ¬ ([["rb"], ["ra"]] = ([["ra"], ["rb"]] : List Row)) := by
  decide

/-- **C1** (amended, confirmed).  For every sequence of
`SetRows`/`AddBackend`/`RemoveBackend` calls, `Snapshot().rows` for a kind
equals the concatenation — in the (unspecified) map-iteration order the
runtime picks for that call, a permutation of the currently-selected
backends — of the latest `SetRows` value of each currently-selected backend
(its current table entry, empty if never set); backends not selected
contribute nothing, because only selected backends are iterated. -/
theorem snapshot_rows_flatten (ops : List StoreOp) (ordD ordP : List String)
    (hD : ordD.Perm (mapKeys (applyStoreOps NewAppState ops).SelectedContexts))
    (hP : ordP.Perm (mapKeys (applyStoreOps NewAppState ops).SelectedContexts)) :
    ((applyStoreOps NewAppState ops).Snapshot ordD ordP).1.Deployments
      = (ordD.map (fun c =>
          (mapLookup (applyStoreOps NewAppState ops).Deployments c).getD [])).flatten ∧
    ((applyStoreOps NewAppState ops).Snapshot ordD ordP).1.Pods
      = (ordP.map (fun c =>
          (mapLookup (applyStoreOps NewAppState ops).Pods c).getD [])).flatten := by
  constructor
  · rw [snapshot_deployments_of_dirty _ _ _ (storeOps_deploymentsDirty ops),
      flattenRows_eq_flatten]
    split
    · rename_i hsel
      have hkeys : mapKeys (applyStoreOps NewAppState ops).SelectedContexts = [] := by
        simp_all [mapKeys, List.isEmpty_iff]
      rw [hkeys] at hD
      rw [List.Perm.eq_nil hD]
      rfl
    · rfl
  · rw [snapshot_pods_of_dirty _ _ _ (storeOps_podsDirty ops),
      flattenRows_eq_flatten]
    split
    · rename_i hsel
      have hkeys : mapKeys (applyStoreOps NewAppState ops).SelectedContexts = [] := by
        simp_all [mapKeys, List.isEmpty_iff]
      rw [hkeys] at hP
      rw [List.Perm.eq_nil hP]
      rfl
    · rfl

/-- Witness for the amended C1 at a concrete call sequence and iteration
order. -/
theorem snapshot_rows_flatten_witness :
    ((applyStoreOps NewAppState
        [StoreOp.addContext "a" "n", StoreOp.setDeployments "a" [["r"]]]).Snapshot
          ["a"] ["a"]).1.Deployments
      = (["a"].map (fun c =>
          (mapLookup (applyStoreOps NewAppState
            [StoreOp.addContext "a" "n",
             StoreOp.setDeployments "a" [["r"]]]).Deployments c).getD [])).flatten ∧
    ((applyStoreOps NewAppState
        [StoreOp.addContext "a" "n", StoreOp.setDeployments "a" [["r"]]]).Snapshot
          ["a"] ["a"]).1.Pods
      = (["a"].map (fun c =>
          (mapLookup (applyStoreOps NewAppState
            [StoreOp.addContext "a" "n",
             StoreOp.setDeployments "a" [["r"]]]).Pods c).getD [])).flatten :=
  snapshot_rows_flatten
    [StoreOp.addContext "a" "n", StoreOp.setDeployments "a" [["r"]]]
    ["a"] ["a"] (by decide) (by decide)

/-! ### C2 / C7 — reachable-state invariants of the Resource Store -/

theorem flattenRows_nil_perm (sel : List (String × String))
    (ord ord2 : List String) (rows : List (String × List Row))
    (hperm : ord.Perm ord2)
    (h : flattenRows sel ord rows = []) :
    flattenRows sel ord2 rows = [] := by
  rw [flattenRows_eq_flatten] at h ⊢
  by_cases hsel : sel.isEmpty
  · simp [hsel]
  · rw [if_neg hsel] at h ⊢
    rw [List.flatten_eq_nil_iff] at h ⊢
    intro l hl
    rw [List.mem_map] at hl
    obtain ⟨c, hc, rfl⟩ := hl
    exact h _ (List.mem_map.mpr ⟨c, hperm.mem_iff.mpr hc, rfl⟩)

theorem snapshot_cachedD_cases (a : AppState) (o p : List String) :
    (a.Snapshot o p).2.cachedAllDeployments
        = flattenRows a.SelectedContexts o a.Deployments ∨
    ((a.Snapshot o p).2.cachedAllDeployments = a.cachedAllDeployments ∧
      a.deploymentsDirty = false ∧ ¬ a.cachedAllDeployments = []) := by
  rcases snapshot_snd_cases a o p with ⟨h, h1, h2, _, _⟩ | h
  · right; rw [h]; exact ⟨rfl, h1, h2⟩
  · rw [h, rp_cachedAllDeployments]
    exact rd_cache a o

theorem snapshot_cachedP_cases (a : AppState) (o p : List String) :
    (a.Snapshot o p).2.cachedAllPods
        = flattenRows a.SelectedContexts p a.Pods ∨
    ((a.Snapshot o p).2.cachedAllPods = a.cachedAllPods ∧
      a.podsDirty = false ∧ ¬ a.cachedAllPods = []) := by
  rcases snapshot_snd_cases a o p with ⟨h, _, _, h1, h2⟩ | h
  · right; rw [h]; exact ⟨rfl, h1, h2⟩
  · rw [h]
    rcases rp_cache (recomputeDeployments a o) p with hc | ⟨hc, hd, hne⟩
    · left; rw [hc, rd_SelectedContexts, rd_Pods]
    · right
      refine ⟨by rw [hc, rd_cachedAllPods], ?_, ?_⟩
      · rw [rd_podsDirty] at hd; exact hd
      · rw [rd_cachedAllPods] at hne; exact hne

/-- The states reachable by any interleaving of Resource Store calls from
`NewAppState`.  The `snapshot` step carries the constraint that the
runtime-chosen map iteration orders are permutations of the selected keys
(the only orders a Go `range` can produce). -/
inductive Reachable : AppState → Prop where
  | new : Reachable NewAppState
  | addContext {a : AppState} (c ns : String) (h : Reachable a) :
      Reachable (a.AddContext c ns)
  | removeContext {a : AppState} (c : String) (h : Reachable a) :
      Reachable (a.RemoveContext c)
  | setDeployments {a : AppState} (c : String) (rows : List Row)
      (h : Reachable a) : Reachable (a.SetDeployments c rows)
  | setPods {a : AppState} (c : String) (rows : List Row)
      (h : Reachable a) : Reachable (a.SetPods c rows)
  | setLoading {a : AppState} (c : String) (b : Bool) (h : Reachable a) :
      Reachable (a.SetLoading c b)
  | setLoadingPods {a : AppState} (c : String) (b : Bool) (h : Reachable a) :
      Reachable (a.SetLoadingPods c b)
  | setError {a : AppState} (c e : String) (h : Reachable a) :
      Reachable (a.SetError c e)
  | clearErrors {a : AppState} (h : Reachable a) : Reachable a.ClearErrors
  | snapshot {a : AppState} (ordD ordP : List String) (h : Reachable a)
      (hD : ordD.Perm (mapKeys a.SelectedContexts))
      (hP : ordP.Perm (mapKeys a.SelectedContexts)) :
      Reachable (a.Snapshot ordD ordP).2

/-- The cache-validity invariant: whenever an aggregate is marked clean and
its cache is non-nil, the cache holds the flatten of the current tables (in
some admissible iteration order). -/
def CacheOK (a : AppState) : Prop :=
  (a.deploymentsDirty = false → ¬ a.cachedAllDeployments = [] →
    ∃ ord, ord.Perm (mapKeys a.SelectedContexts) ∧
      a.cachedAllDeployments = flattenRows a.SelectedContexts ord a.Deployments) ∧
  (a.podsDirty = false → ¬ a.cachedAllPods = [] →
    ∃ ord, ord.Perm (mapKeys a.SelectedContexts) ∧
      a.cachedAllPods = flattenRows a.SelectedContexts ord a.Pods)

theorem cacheOK_congr (x y : AppState)
    (h1 : x.SelectedContexts = y.SelectedContexts)
    (h2 : x.Deployments = y.Deployments) (h3 : x.Pods = y.Pods)
    (h4 : x.cachedAllDeployments = y.cachedAllDeployments)
    (h5 : x.cachedAllPods = y.cachedAllPods)
    (h6 : x.deploymentsDirty = y.deploymentsDirty)
    (h7 : x.podsDirty = y.podsDirty)
    (hy : CacheOK y) : CacheOK x := by
  unfold CacheOK at hy ⊢
  rw [h1, h2, h3, h4, h5, h6, h7]
  exact hy

theorem reachable_cacheOK {a : AppState} (h : Reachable a) : CacheOK a := by
  induction h with
  | new =>
      constructor <;> (intro h1 _; simp [NewAppState] at h1)
  | addContext c ns h ih =>
      constructor <;> (intro h1 _; simp [AppState.AddContext] at h1)
  | removeContext c h ih =>
      constructor <;> (intro h1 _; simp [AppState.RemoveContext] at h1)
  | setDeployments c rows h ih =>
      constructor
      · intro h1 _; simp [AppState.SetDeployments] at h1
      · intro h1 h2
        obtain ⟨ord, hperm, heq⟩ := ih.2
          (by simpa [AppState.SetDeployments] using h1)
          (by simpa [AppState.SetDeployments] using h2)
        exact ⟨ord, by simpa [AppState.SetDeployments] using hperm,
          by simpa [AppState.SetDeployments] using heq⟩
  | setPods c rows h ih =>
      constructor
      · intro h1 h2
        obtain ⟨ord, hperm, heq⟩ := ih.1
          (by simpa [AppState.SetPods] using h1)
          (by simpa [AppState.SetPods] using h2)
        exact ⟨ord, by simpa [AppState.SetPods] using hperm,
          by simpa [AppState.SetPods] using heq⟩
      · intro h1 _; simp [AppState.SetPods] at h1
  | setLoading c b h ih =>
      exact cacheOK_congr _ _ rfl rfl rfl rfl rfl rfl rfl ih
  | setLoadingPods c b h ih =>
      exact cacheOK_congr _ _ rfl rfl rfl rfl rfl rfl rfl ih
  | setError c e h ih =>
      exact cacheOK_congr _ _ rfl rfl rfl rfl rfl rfl rfl ih
  | clearErrors h ih =>
      exact cacheOK_congr _ _ rfl rfl rfl rfl rfl rfl rfl ih
  | snapshot ordD ordP h hD hP ih =>
      constructor
      · intro _ h2
        rcases snapshot_cachedD_cases _ ordD ordP with hc | ⟨hc, hd, hne⟩
        · exact ⟨ordD, by simpa using hD, by simpa using hc⟩
        · obtain ⟨ord, hperm, heq⟩ := ih.1 hd hne
          exact ⟨ord, by simpa using hperm, by rw [hc, heq]; simp⟩
      · intro _ h2
        rcases snapshot_cachedP_cases _ ordD ordP with hc | ⟨hc, hd, hne⟩
        · exact ⟨ordP, by simpa using hP, by simpa using hc⟩
        · obtain ⟨ord, hperm, heq⟩ := ih.2 hd hne
          exact ⟨ord, by simpa using hperm, by rw [hc, heq]; simp⟩

/-- A snapshot value faithfully represents a store state: its maps are the
state's maps, and each rows aggregate is the flatten of the state's current
tables in some admissible iteration order. -/
def Represents (snap : KT.Snapshot) (a : AppState) : Prop :=
  snap.SelectedContexts = a.SelectedContexts ∧
  snap.LoadingStates = a.combinedLoadingStates ∧
  snap.Errors = a.Errors ∧
  (∃ ord, ord.Perm (mapKeys a.SelectedContexts) ∧
    snap.Deployments = flattenRows a.SelectedContexts ord a.Deployments) ∧
  (∃ ord, ord.Perm (mapKeys a.SelectedContexts) ∧
    snap.Pods = flattenRows a.SelectedContexts ord a.Pods)

theorem represents_snapshot (a : AppState) (ordD ordP : List String)
    (hok : CacheOK a)
    (hD : ordD.Perm (mapKeys a.SelectedContexts))
    (hP : ordP.Perm (mapKeys a.SelectedContexts)) :
    Represents (a.Snapshot ordD ordP).1 a := by
  rw [snapshot_fst]
  unfold AppState.snapshotOf Represents
  dsimp only
  refine ⟨?_, ?_, ?_, ?_, ?_⟩
  · rw [copyStringMap_eq, snapshot_snd_SelectedContexts]
  · exact combinedLoadingStates_congr _ _ (by simp) (by simp) (by simp)
  · rw [copyStringMap_eq, snapshot_snd_Errors]
  · rw [cloneRows_eq]
    rcases snapshot_cachedD_cases a ordD ordP with hc | ⟨hc, hd, hne⟩
    · exact ⟨ordD, hD, hc⟩
    · obtain ⟨ord, hperm, heq⟩ := hok.1 hd hne
      exact ⟨ord, hperm, by rw [hc, heq]⟩
  · rw [cloneRows_eq]
    rcases snapshot_cachedP_cases a ordD ordP with hc | ⟨hc, hd, hne⟩
    · exact ⟨ordP, hP, hc⟩
    · obtain ⟨ord, hperm, heq⟩ := hok.2 hd hne
      exact ⟨ord, hperm, by rw [hc, heq]⟩

theorem appstate_update_cachedD_self (x : AppState) (v : List Row)
    (hv : v = x.cachedAllDeployments) (h2 : x.deploymentsDirty = false) :
    { x with cachedAllDeployments := v, deploymentsDirty := false } = x := by
  cases x
  simp_all

theorem appstate_update_cachedP_self (x : AppState) (v : List Row)
    (hv : v = x.cachedAllPods) (h2 : x.podsDirty = false) :
    { x with cachedAllPods := v, podsDirty := false } = x := by
  cases x
  simp_all

/-- A second `Snapshot` with no intervening mutation returns the same
snapshot value (whatever admissible iteration orders the runtime picks for
each call). -/
theorem snapshot_stable (a : AppState) (ordD ordP ordD2 ordP2 : List String)
    (hDD : ordD.Perm ordD2) (hPP : ordP.Perm ordP2) :
    (((a.Snapshot ordD ordP).2).Snapshot ordD2 ordP2).1
      = (a.Snapshot ordD ordP).1 := by
  have hdirty := snapshot_snd_dirty a ordD ordP
  have hrd : recomputeDeployments (a.Snapshot ordD ordP).2 ordD2
      = (a.Snapshot ordD ordP).2 := by
    by_cases hempty : (a.Snapshot ordD ordP).2.cachedAllDeployments = []
    · have hfl1 : flattenRows a.SelectedContexts ordD a.Deployments = [] := by
        rcases snapshot_cachedD_cases a ordD ordP with hc | ⟨hc, _, hne⟩
        · rw [← hc]; exact hempty
        · exact absurd (hc ▸ hempty) hne
      have hflat : flattenRows (a.Snapshot ordD ordP).2.SelectedContexts ordD2
          (a.Snapshot ordD ordP).2.Deployments = [] := by
        rw [snapshot_snd_SelectedContexts, snapshot_snd_Deployments]
        exact flattenRows_nil_perm _ ordD ordD2 _ hDD hfl1
      unfold recomputeDeployments
      rw [if_pos (by simp [hempty])]
      exact appstate_update_cachedD_self _ _ (hflat.trans hempty.symm) hdirty.1
    · unfold recomputeDeployments
      rw [if_neg (by simp [hdirty.1, List.isEmpty_iff, hempty])]
  have hrp : recomputePods (a.Snapshot ordD ordP).2 ordP2
      = (a.Snapshot ordD ordP).2 := by
    by_cases hempty : (a.Snapshot ordD ordP).2.cachedAllPods = []
    · have hfl1 : flattenRows a.SelectedContexts ordP a.Pods = [] := by
        rcases snapshot_cachedP_cases a ordD ordP with hc | ⟨hc, _, hne⟩
        · rw [← hc]; exact hempty
        · exact absurd (hc ▸ hempty) hne
      have hflat : flattenRows (a.Snapshot ordD ordP).2.SelectedContexts ordP2
          (a.Snapshot ordD ordP).2.Pods = [] := by
        rw [snapshot_snd_SelectedContexts, snapshot_snd_Pods]
        exact flattenRows_nil_perm _ ordP ordP2 _ hPP hfl1
      unfold recomputePods
      rw [if_pos (by simp [hempty])]
      exact appstate_update_cachedP_self _ _ (hflat.trans hempty.symm) hdirty.2
    · unfold recomputePods
      rw [if_neg (by simp [hdirty.2, List.isEmpty_iff, hempty])]
  have hsnd : ((a.Snapshot ordD ordP).2.Snapshot ordD2 ordP2).2
      = (a.Snapshot ordD ordP).2 := by
    rcases snapshot_snd_cases (a.Snapshot ordD ordP).2 ordD2 ordP2 with ⟨h, _⟩ | h
    · exact h
    · rw [h, hrd, hrp]
  rw [snapshot_fst (a.Snapshot ordD ordP).2, hsnd, snapshot_fst a]

/-- The mutating calls the claim quantifies over. -/
inductive MutOp where
  | addContext (c ns : String)
  | removeContext (c : String)
  | setDeployments (c : String) (rows : List Row)
  | setPods (c : String) (rows : List Row)
  | setError (c e : String)
deriving Repr, DecidableEq

def applyMutOp (a : AppState) : MutOp → AppState
  | MutOp.addContext c ns => a.AddContext c ns
  | MutOp.removeContext c => a.RemoveContext c
  | MutOp.setDeployments c rows => a.SetDeployments c rows
  | MutOp.setPods c rows => a.SetPods c rows
  | MutOp.setError c e => a.SetError c e

/-- **C2** (confirmed).  After any single mutating call on a reachable
store, the next `Snapshot()` reflects exactly the post-mutation state: its
maps are the post-mutation maps and its aggregates are the flatten of the
post-mutation tables (recomputed when dirty, or served from a cache the
invariant guarantees equals that same flatten — so the mutation is applied
exactly once, neither stale nor doubled); and a second `Snapshot()` with no
intervening mutation returns an equal value. -/
theorem snapshot_reflects_mutation_once (a : AppState) (ha : Reachable a)
    (m : MutOp) (ordD ordP ordD2 ordP2 : List String)
    (hD : ordD.Perm (mapKeys (applyMutOp a m).SelectedContexts))
    (hP : ordP.Perm (mapKeys (applyMutOp a m).SelectedContexts))
    (hD2 : ordD2.Perm (mapKeys (applyMutOp a m).SelectedContexts))
    (hP2 : ordP2.Perm (mapKeys (applyMutOp a m).SelectedContexts)) :
    Represents ((applyMutOp a m).Snapshot ordD ordP).1 (applyMutOp a m) ∧
    (((applyMutOp a m).Snapshot ordD ordP).2.Snapshot ordD2 ordP2).1
      = ((applyMutOp a m).Snapshot ordD ordP).1 := by
  have hre : Reachable (applyMutOp a m) := by
    cases m with
    | addContext c ns => exact Reachable.addContext c ns ha
    | removeContext c => exact Reachable.removeContext c ha
    | setDeployments c rows => exact Reachable.setDeployments c rows ha
    | setPods c rows => exact Reachable.setPods c rows ha
    | setError c e => exact Reachable.setError c e ha
  exact ⟨represents_snapshot _ _ _ (reachable_cacheOK hre) hD hP,
    snapshot_stable _ _ _ _ _ (hD.trans hD2.symm) (hP.trans hP2.symm)⟩

/-- Witness for C2: adding backend "a" to a fresh store, then taking two
snapshots with iteration order `["a"]`. -/
theorem snapshot_reflects_mutation_once_witness :
    Represents ((applyMutOp NewAppState (MutOp.addContext "a" "n")).Snapshot
        ["a"] ["a"]).1 (applyMutOp NewAppState (MutOp.addContext "a" "n")) ∧
    (((applyMutOp NewAppState (MutOp.addContext "a" "n")).Snapshot
        ["a"] ["a"]).2.Snapshot ["a"] ["a"]).1
      = ((applyMutOp NewAppState (MutOp.addContext "a" "n")).Snapshot
        ["a"] ["a"]).1 :=
  snapshot_reflects_mutation_once NewAppState Reachable.new
    (MutOp.addContext "a" "n") ["a"] ["a"] ["a"] ["a"]
    (by decide) (by decide) (by decide) (by decide)

/-! ### C7 — selected backends always have table entries; removal is total -/

theorem reachable_tables {a : AppState} (h : Reachable a) :
    ∀ c, (mapLookup a.SelectedContexts c).isSome →
      (mapLookup a.Deployments c).isSome ∧ (mapLookup a.Pods c).isSome := by
  induction h with
  | new => intro c hc; simp [NewAppState, mapLookup] at hc
  | @addContext a2 c2 ns h ih =>
      intro c hc
      simp only [AppState.AddContext] at hc ⊢
      by_cases hcc : c = c2
      · subst hcc
        constructor
        · split
          · assumption
          · rw [lookup_mapInsert_self]; rfl
        · split
          · assumption
          · rw [lookup_mapInsert_self]; rfl
      · rw [lookup_mapInsert_ne _ _ _ _ hcc] at hc
        obtain ⟨hd, hp⟩ := ih c hc
        constructor
        · split
          · exact hd
          · rwa [lookup_mapInsert_ne _ _ _ _ hcc]
        · split
          · exact hp
          · rwa [lookup_mapInsert_ne _ _ _ _ hcc]
  | @removeContext a2 c2 h ih =>
      intro c hc
      simp only [AppState.RemoveContext] at hc ⊢
      by_cases hcc : c = c2
      · subst hcc
        rw [lookup_mapErase_self] at hc
        simp at hc
      · rw [lookup_mapErase_ne _ _ _ hcc] at hc
        obtain ⟨hd, hp⟩ := ih c hc
        rw [lookup_mapErase_ne _ _ _ hcc, lookup_mapErase_ne _ _ _ hcc]
        exact ⟨hd, hp⟩
  | @setDeployments a2 c2 rows h ih =>
      intro c hc
      simp only [AppState.SetDeployments] at hc ⊢
      obtain ⟨hd, hp⟩ := ih c hc
      refine ⟨?_, hp⟩
      by_cases hcc : c = c2
      · subst hcc; rw [lookup_mapInsert_self]; rfl
      · rwa [lookup_mapInsert_ne _ _ _ _ hcc]
  | @setPods a2 c2 rows h ih =>
      intro c hc
      simp only [AppState.SetPods] at hc ⊢
      obtain ⟨hd, hp⟩ := ih c hc
      refine ⟨hd, ?_⟩
      by_cases hcc : c = c2
      · subst hcc; rw [lookup_mapInsert_self]; rfl
      · rwa [lookup_mapInsert_ne _ _ _ _ hcc]
  | @setLoading a2 c2 b h ih => exact ih
  | @setLoadingPods a2 c2 b h ih => exact ih
  | @setError a2 c2 e h ih => exact ih
  | @clearErrors a2 h ih => exact ih
  | @snapshot a2 ordD ordP h hD hP ih =>
      intro c hc
      rw [snapshot_snd_SelectedContexts] at hc
      obtain ⟨hd, hp⟩ := ih c hc
      rw [snapshot_snd_Deployments, snapshot_snd_Pods]
      exact ⟨hd, hp⟩

/-- **C7** (confirmed).  In every reachable Resource Store state, a backend
name present in the selected set has an entry in both tracked resource
tables; and `RemoveContext` (one atomic transition — one method body under
the write lock) removes the name from the selection, both tables, both
loading maps, and the error map. -/
theorem selected_backends_have_table_entries (a : AppState)
    (ha : Reachable a) (c : String)
    (hsel : (mapLookup a.SelectedContexts c).isSome) :
    ((mapLookup a.Deployments c).isSome ∧ (mapLookup a.Pods c).isSome) ∧
    (mapLookup (a.RemoveContext c).SelectedContexts c = none ∧
     mapLookup (a.RemoveContext c).Deployments c = none ∧
     mapLookup (a.RemoveContext c).Pods c = none ∧
     mapLookup (a.RemoveContext c).LoadingDeployments c = none ∧
     mapLookup (a.RemoveContext c).LoadingPods c = none ∧
     mapLookup (a.RemoveContext c).Errors c = none) := by
  refine ⟨reachable_tables ha c hsel, ?_, ?_, ?_, ?_, ?_, ?_⟩ <;>
    exact lookup_mapErase_self _ _

/-- Witness for C7 at a concrete reachable store with backend "x"
selected. -/
theorem selected_backends_have_table_entries_witness :
    ((mapLookup (NewAppState.AddContext "x" "ns").Deployments "x").isSome ∧
     (mapLookup (NewAppState.AddContext "x" "ns").Pods "x").isSome) ∧
    (mapLookup ((NewAppState.AddContext "x" "ns").RemoveContext "x").SelectedContexts "x" = none ∧
     mapLookup ((NewAppState.AddContext "x" "ns").RemoveContext "x").Deployments "x" = none ∧
     mapLookup ((NewAppState.AddContext "x" "ns").RemoveContext "x").Pods "x" = none ∧
     mapLookup ((NewAppState.AddContext "x" "ns").RemoveContext "x").LoadingDeployments "x" = none ∧
     mapLookup ((NewAppState.AddContext "x" "ns").RemoveContext "x").LoadingPods "x" = none ∧
     mapLookup ((NewAppState.AddContext "x" "ns").RemoveContext "x").Errors "x" = none) :=
  selected_backends_have_table_entries (NewAppState.AddContext "x" "ns")
    (Reachable.addContext "x" "ns" Reachable.new) "x" (by decide)

/-! ### C3 — concurrent `GetClientForContext` callers -/

/-- Invariant of the concurrent registry system (all callers on `name`):
(1) a caller that finished with a handle finished with the cached handle;
(2) when a handle is cached, the last construction attempt produced it and
every earlier attempt failed; (3) while nothing is cached, every attempt so
far failed. -/
def RegInv (outcome : Nat → Except String Nat) (name : String)
    (sys : RegSystem) : Prop :=
  (∀ i h, sys.callers.get? i = some (CallerPhase.done (Except.ok h)) →
      mapLookup sys.clientsByContext name = some h) ∧
  (∀ h, mapLookup sys.clientsByContext name = some h →
      0 < sys.attempts ∧ outcome (sys.attempts - 1) = Except.ok h ∧
      ∀ k, k < sys.attempts - 1 → ∀ v, ¬ outcome k = Except.ok v) ∧
  (mapLookup sys.clientsByContext name = none →
      ∀ k, k < sys.attempts → ∀ v, ¬ outcome k = Except.ok v)

theorem regInit_inv (outcome : Nat → Except String Nat) (name : String)
    (n : Nat) : RegInv outcome name (regInit n) := by
  refine ⟨?_, ?_, ?_⟩
  · intro i h hget
    simp only [regInit, List.get?_eq_getElem?, List.getElem?_replicate] at hget
    split at hget
    · cases hget
    · cases hget
  · intro h hl
    simp [regInit, mapLookup] at hl
  · intro _ k hk
    exact absurd hk (Nat.not_lt_zero k)

theorem regStep_cache_mono (outcome : Nat → Except String Nat) (name : String)
    (sys : RegSystem) (i : Nat) (h : Nat)
    (hc : mapLookup sys.clientsByContext name = some h) :
    mapLookup (regStep outcome name sys i).clientsByContext name = some h ∧
    (regStep outcome name sys i).attempts = sys.attempts := by
  unfold regStep
  cases hgi : sys.callers.get? i with
  | none => exact ⟨hc, rfl⟩
  | some phase =>
      cases phase with
      | fastCheck => simp [hc]
      | lockedSection => simp [hc]
      | done r => exact ⟨hc, rfl⟩

theorem regStep_inv (outcome : Nat → Except String Nat) (name : String)
    (sys : RegSystem) (i : Nat) (hinv : RegInv outcome name sys) :
    RegInv outcome name (regStep outcome name sys i) := by
  obtain ⟨h1, h2, h3⟩ := hinv
  unfold regStep
  cases hgi : sys.callers.get? i with
  | none => exact ⟨h1, h2, h3⟩
  | some phase =>
      have hlen : i < sys.callers.length := by
        by_contra hh
        rw [List.get?_eq_none.mpr (Nat.le_of_not_lt hh)] at hgi
        cases hgi
      cases phase with
      | fastCheck =>
          cases hm : mapLookup sys.clientsByContext name with
          | some client =>
              simp only [hm]
              refine ⟨?_, h2, h3⟩
              intro j hj hget
              by_cases hij : i = j
              · subst hij
                rw [List.get?_set_eq_of_lt _ hlen] at hget
                cases hget
                exact hm
              · rw [List.get?_set_ne _ _ hij] at hget
                exact h1 j hj hget
          | none =>
              simp only [hm]
              refine ⟨?_, h2, h3⟩
              intro j hj hget
              by_cases hij : i = j
              · subst hij
                rw [List.get?_set_eq_of_lt _ hlen] at hget
                cases hget
              · rw [List.get?_set_ne _ _ hij] at hget
                exact h1 j hj hget
      | lockedSection =>
          cases hm : mapLookup sys.clientsByContext name with
          | some client =>
              simp only [hm]
              refine ⟨?_, h2, h3⟩
              intro j hj hget
              by_cases hij : i = j
              · subst hij
                rw [List.get?_set_eq_of_lt _ hlen] at hget
                cases hget
                exact hm
              · rw [List.get?_set_ne _ _ hij] at hget
                exact h1 j hj hget
          | none =>
              cases ho : outcome sys.attempts with
              | error e =>
                  simp only [hm, ho]
                  refine ⟨?_, ?_, ?_⟩
                  · intro j hj hget
                    by_cases hij : i = j
                    · subst hij
                      rw [List.get?_set_eq_of_lt _ hlen] at hget
                      cases hget
                    · rw [List.get?_set_ne _ _ hij] at hget
                      exact h1 j hj hget
                  · intro hh hl
                    exact absurd (hm ▸ hl) (by simp)
                  · intro _ k hk v
                    replace hk : k < sys.attempts + 1 := hk
                    by_cases hka : k < sys.attempts
                    · exact h3 hm k hka v
                    · have : k = sys.attempts := by omega
                      subst this
                      rw [ho]
                      intro hc
                      cases hc
              | ok client =>
                  simp only [hm, ho]
                  refine ⟨?_, ?_, ?_⟩
                  · intro j hj hget
                    by_cases hij : i = j
                    · subst hij
                      rw [List.get?_set_eq_of_lt _ hlen] at hget
                      cases hget
                      exact lookup_mapInsert_self _ _ _
                    · rw [List.get?_set_ne _ _ hij] at hget
                      have := h1 j hj hget
                      rw [hm] at this
                      cases this
                  · intro hh hl
                    rw [lookup_mapInsert_self] at hl
                    cases hl
                    refine ⟨Nat.succ_pos sys.attempts, ?_, ?_⟩
                    · show outcome (sys.attempts + 1 - 1) = _
                      simpa using ho
                    · intro k hk v
                      replace hk : k < sys.attempts + 1 - 1 := hk
                      exact h3 hm k (by omega) v
                  · intro hl
                    rw [lookup_mapInsert_self] at hl
                    cases hl
      | done r => exact ⟨h1, h2, h3⟩

theorem regRun_inv (outcome : Nat → Except String Nat) (name : String)
    (sched : List Nat) (sys : RegSystem) (hinv : RegInv outcome name sys) :
    RegInv outcome name (regRun outcome name sys sched) := by
  induction sched generalizing sys with
  | nil => exact hinv
  | cons i rest ih =>
      exact ih _ (regStep_inv outcome name sys i hinv)

theorem regRun_cache_mono (outcome : Nat → Except String Nat) (name : String)
    (sched : List Nat) (sys : RegSystem) (h : Nat)
    (hc : mapLookup sys.clientsByContext name = some h) :
    mapLookup (regRun outcome name sys sched).clientsByContext name = some h ∧
    (regRun outcome name sys sched).attempts = sys.attempts := by
  induction sched generalizing sys with
  | nil => exact ⟨hc, rfl⟩
  | cons i rest ih =>
      obtain ⟨hc2, ha2⟩ := regStep_cache_mono outcome name sys i h hc
      obtain ⟨hc3, ha3⟩ := ih _ hc2
      refine ⟨hc3, ?_⟩
      show (regRun outcome name (regStep outcome name sys i) rest).attempts
        = sys.attempts
      rw [ha3, ha2]

/-- First two construction attempts fail with distinct errors; afterwards
construction would succeed. -/
def c3Outcome : Nat → Except String Nat := fun k =>
  if k = 0 then Except.error "connection refused"
  else if k = 1 then Except.error "timeout"
  else Except.ok 7

/-- **C3** (counterexample).  Two concurrent callers on a fresh registry,
serialized by the mutex ( schedule `[0,0,1,1]`): the first caller's
construction attempt fails, so nothing is cached and the second caller
performs a *second* construction attempt and observes a *different* error.
This refutes "exactly one construction attempt proceeds" and "all callers
observe the same error if construction fails". -/
theorem registry_retries_counterexample :
    (regRun c3Outcome "x" (regInit 2) [0, 0, 1, 1]).attempts = 2 ∧
    ¬ ((regRun c3Outcome "x" (regInit 2) [0, 0, 1, 1]).attempts = 1) ∧
    (regRun c3Outcome "x" (regInit 2) [0, 0, 1, 1]).callers
      = [CallerPhase.done (Except.error "connection refused"),
         CallerPhase.done (Except.error "timeout")] ∧
    ¬ ((Except.error "connection refused" : Except String Nat)
        = Except.error "timeout") := by
  decide

/-- **C3** (amended, confirmed).  For every schedule of concurrent callers
of `GetClientForContext(name)` on a fresh registry: every two callers that
obtain a handle obtain the *same* handle; at most one construction attempt
ever succeeds (at most one handle is ever created and cached); and once a
handle is cached it is never replaced and no further construction attempt
proceeds.  While construction keeps failing, however, each caller that
reaches the write-locked section re-attempts construction and may observe a
different error (see the counterexample). -/
theorem registry_single_flight (outcome : Nat → Except String Nat)
    (name : String) (n : Nat) (sched extra : List Nat)
    (i j : Nat) (hi hj : Nat) (h : Nat) (k1 k2 v1 v2 : Nat)
    (hgi : (regRun outcome name (regInit n) sched).callers.get? i
        = some (CallerPhase.done (Except.ok hi)))
    (hgj : (regRun outcome name (regInit n) sched).callers.get? j
        = some (CallerPhase.done (Except.ok hj)))
    (hk1 : k1 < (regRun outcome name (regInit n) sched).attempts)
    (hk2 : k2 < (regRun outcome name (regInit n) sched).attempts)
    (hv1 : outcome k1 = Except.ok v1)
    (hv2 : outcome k2 = Except.ok v2)
    (hcache : mapLookup (regRun outcome name (regInit n)
        sched).clientsByContext name = some h) :
    hi = hj ∧ k1 = k2 ∧ hi = h ∧
    mapLookup (regRun outcome name (regInit n)
        (sched ++ extra)).clientsByContext name = some h ∧
    (regRun outcome name (regInit n) (sched ++ extra)).attempts
      = (regRun outcome name (regInit n) sched).attempts := by
  obtain ⟨h1, h2, h3⟩ :=
    regRun_inv outcome name sched (regInit n) (regInit_inv outcome name n)
  have hci := h1 i hi hgi
  have hcj := h1 j hj hgj
  have hij : hi = hj := by
    rw [hci] at hcj
    cases hcj
    rfl
  have hk12 : k1 = k2 := by
    obtain ⟨hpos, hlast, hbefore⟩ := h2 h hcache
    have e1 : k1 = (regRun outcome name (regInit n) sched).attempts - 1 := by
      by_contra hne
      exact hbefore k1 (by omega) v1 hv1
    have e2 : k2 = (regRun outcome name (regInit n) sched).attempts - 1 := by
      by_contra hne
      exact hbefore k2 (by omega) v2 hv2
    rw [e1, e2]
  have hih : hi = h := by
    rw [hci] at hcache
    cases hcache
    rfl
  have hmono : regRun outcome name (regInit n) (sched ++ extra)
      = regRun outcome name (regRun outcome name (regInit n) sched) extra := by
    unfold regRun
    rw [List.foldl_append]
  rw [hmono]
  have := regRun_cache_mono outcome name extra
    (regRun outcome name (regInit n) sched) h hcache
  exact ⟨hij, hk12, hih, this.1, this.2⟩

/-- Witness for the amended C3: three callers, constructor succeeds at the
first attempt, all observe handle 5; a further step changes nothing. -/
theorem registry_single_flight_witness :
    (5 : Nat) = 5 ∧ (0 : Nat) = 0 ∧ (5 : Nat) = 5 ∧
    mapLookup (regRun (fun _ => Except.ok 5) "x" (regInit 3)
        ([0, 0, 1, 2] ++ [0])).clientsByContext "x" = some 5 ∧
    (regRun (fun _ => Except.ok 5) "x" (regInit 3)
        ([0, 0, 1, 2] ++ [0])).attempts
      = (regRun (fun _ => Except.ok 5) "x" (regInit 3)
        [0, 0, 1, 2]).attempts :=
  registry_single_flight (fun _ => Except.ok 5) "x" 3 [0, 0, 1, 2] [0]
    0 1 5 5 5 0 0 5 5
    (by decide) (by decide) (by decide) (by decide)
    (by decide) (by decide) (by decide)

/-! ### C5 — restarting a pane's stream: what is and is not dropped

There is no generation counter anywhere in the stream code: `LogLineMsg`
carries only the pane index and the line, and the `LogLineMsg` case of the
update loop applies every message whose pane index is in range.  Replacing
`activeStreamChans[p]` does make every `continueLogStreamCmd(p)` whose
*lookup* runs after the second call capture the new channel — but a command
whose lookup ran before the restart keeps its captured reference to the
superseded channel and completes its blocking receive after the restart,
delivering a line that was still buffered in the superseded channel at
restart time; the update loop applies it. -/

/-- The buffered messages of channel `c` (empty if no such channel). -/
def bufferOf (S : StreamSys) (c : Nat) : List Msg :=
  ((S.channels.find? (fun ch => ch.id == c)).map ChanState.buffer).getD []

/-- **C5** (counterexample).  Pane 0 starts a stream (channel 0); its
producer emits "stale"; a `continueLogStreamCmd(0)` executes its channel
lookup (capturing channel 0) but not yet its receive; then
`startLogStreamForClientCmd` runs a second time for pane 0 (channel 1).
At that moment "stale" is still buffered in the superseded channel and
nothing is in flight.  The pending receive then completes on its captured
channel and the update loop appends "stale" — a line of the superseded
stream — to pane 0.  Stale messages are *not* dropped unconditionally, and
even lines still buffered in the superseded channel at restart time can be
applied. -/
theorem stale_logline_applied_counterexample :
    bufferOf (sysRun sysInit
      [SysAction.startLogStream 0, SysAction.producerEmit 0 "stale",
       SysAction.contLookup 0, SysAction.startLogStream 0]) 0
      = [Msg.LogLineMsg 0 "stale"] ∧
    (sysRun sysInit
      [SysAction.startLogStream 0, SysAction.producerEmit 0 "stale",
       SysAction.contLookup 0, SysAction.startLogStream 0]).inflight = [] ∧
    ((sysRun sysInit
      [SysAction.startLogStream 0, SysAction.producerEmit 0 "stale",
       SysAction.contLookup 0, SysAction.startLogStream 0,
       SysAction.contReceive 0, SysAction.reduce 0]).panes.get? 0).map
        Pane.logLines = some ["stale"] := by
  decide

/-- Channel-freshness/uniqueness invariant of the stream system: active
channel ids are below the allocator and no channel is active for two
panes. -/
def StreamInv (S : StreamSys) : Prop :=
  (∀ q c, mapLookup S.activeStreamChans q = some c → c < S.nextChan) ∧
  (∀ q q2 c, mapLookup S.activeStreamChans q = some c →
      mapLookup S.activeStreamChans q2 = some c → q = q2)

theorem sysInit_inv : StreamInv sysInit := by
  constructor
  · intro q c hq
    simp [sysInit, mapLookup] at hq
  · intro q q2 c hq hq2
    simp [sysInit, mapLookup] at hq

theorem sysStep_inv (S : StreamSys) (act : SysAction) (h : StreamInv S) :
    StreamInv (sysStep S act) := by
  obtain ⟨h1, h2⟩ := h
  cases act with
  | startLogStream q =>
      constructor
      · intro q2 c hq2
        show c < S.nextChan + 1
        by_cases hqq : q2 = q
        · rw [hqq] at hq2
          rw [show (sysStep S (SysAction.startLogStream q)).activeStreamChans
              = mapInsert S.activeStreamChans q S.nextChan from rfl,
            lookup_mapInsert_self] at hq2
          injection hq2 with hh
          omega
        · rw [show (sysStep S (SysAction.startLogStream q)).activeStreamChans
              = mapInsert S.activeStreamChans q S.nextChan from rfl,
            lookup_mapInsert_ne _ _ _ _ hqq] at hq2
          have := h1 q2 c hq2
          omega
      · intro qa qb c hqa hqb
        rw [show (sysStep S (SysAction.startLogStream q)).activeStreamChans
            = mapInsert S.activeStreamChans q S.nextChan from rfl] at hqa hqb
        by_cases ha : qa = q <;> by_cases hb : qb = q
        · rw [ha, hb]
        · subst ha
          rw [lookup_mapInsert_self] at hqa
          rw [lookup_mapInsert_ne _ _ _ _ hb] at hqb
          injection hqa with hc
          subst hc
          exact absurd (h1 qb _ hqb) (by omega)
        · subst hb
          rw [lookup_mapInsert_self] at hqb
          rw [lookup_mapInsert_ne _ _ _ _ ha] at hqa
          injection hqb with hc
          subst hc
          exact absurd (h1 qa _ hqa) (by omega)
        · rw [lookup_mapInsert_ne _ _ _ _ ha] at hqa
          rw [lookup_mapInsert_ne _ _ _ _ hb] at hqb
          exact h2 qa qb c hqa hqb
  | producerEmit c2 line => exact ⟨h1, h2⟩
  | contLookup q =>
      have hfields : (sysStep S (SysAction.contLookup q)).activeStreamChans
            = S.activeStreamChans ∧
          (sysStep S (SysAction.contLookup q)).nextChan = S.nextChan := by
        constructor
        · simp only [sysStep]
          repeat' split
          all_goals rfl
        · simp only [sysStep]
          repeat' split
          all_goals rfl
      rw [StreamInv, hfields.1, hfields.2]
      exact ⟨h1, h2⟩
  | contReceive k =>
      have hfields : (sysStep S (SysAction.contReceive k)).activeStreamChans
            = S.activeStreamChans ∧
          (sysStep S (SysAction.contReceive k)).nextChan = S.nextChan := by
        constructor
        · simp only [sysStep]
          repeat' split
          all_goals rfl
        · simp only [sysStep]
          repeat' split
          all_goals rfl
      rw [StreamInv, hfields.1, hfields.2]
      exact ⟨h1, h2⟩
  | reduce k =>
      have hfields : (sysStep S (SysAction.reduce k)).activeStreamChans
            = S.activeStreamChans ∧
          (sysStep S (SysAction.reduce k)).nextChan = S.nextChan := by
        constructor
        · simp only [sysStep]
          repeat' split
          all_goals rfl
        · simp only [sysStep]
          repeat' split
          all_goals rfl
      rw [StreamInv, hfields.1, hfields.2]
      exact ⟨h1, h2⟩

theorem sysRun_inv (acts : List SysAction) (S : StreamSys)
    (h : StreamInv S) : StreamInv (sysRun S acts) := by
  induction acts generalizing S with
  | nil => exact h
  | cons act rest ih => exact ih _ (sysStep_inv S act h)

theorem find_id_map (l : List ChanState) (c : Nat) (f : ChanState → ChanState)
    (hf : ∀ ch, (f ch).id = ch.id) :
    (l.map f).find? (fun ch => ch.id == c)
      = (l.find? (fun ch => ch.id == c)).map f := by
  induction l with
  | nil => rfl
  | cons ch rest ih =>
      by_cases hcc : ch.id = c
      · simp [List.find?_cons, hf, hcc]
      · simp [List.find?_cons, hf, hcc, ih]

/-- One step (other than a restart of pane `p`) preserves: the active
channel of pane `p`, the fact that channel `c` is active for no pane, the
allocator bound, and the fact that every pending reader either already
existed (is in `R0`) or captured a channel other than `c` — a lookup
executed now can only capture a currently-active channel, never the
superseded `c`. -/
theorem sysStep_frame (S : StreamSys) (act : SysAction) (p c cNew : Nat)
    (R0 : List Nat)
    (hact : ¬ act = SysAction.startLogStream p)
    (ha : mapLookup S.activeStreamChans p = some cNew)
    (hb : ∀ q, ¬ mapLookup S.activeStreamChans q = some c)
    (hcn : c < S.nextChan)
    (hr : ∀ r ∈ S.readers, r ∈ R0 ∨ ¬ r = c) :
    mapLookup (sysStep S act).activeStreamChans p = some cNew ∧
    (∀ q, ¬ mapLookup (sysStep S act).activeStreamChans q = some c) ∧
    c < (sysStep S act).nextChan ∧
    (∀ r ∈ (sysStep S act).readers, r ∈ R0 ∨ ¬ r = c) := by
  cases act with
  | startLogStream q =>
      have hqp : ¬ q = p := fun hh => hact (by rw [hh])
      refine ⟨?_, ?_, ?_, hr⟩
      · show mapLookup (mapInsert S.activeStreamChans q S.nextChan) p = some cNew
        rw [lookup_mapInsert_ne _ _ _ _ (fun hh => hqp hh.symm)]
        exact ha
      · intro q2
        show ¬ mapLookup (mapInsert S.activeStreamChans q S.nextChan) q2 = some c
        by_cases hq2 : q2 = q
        · subst hq2
          rw [lookup_mapInsert_self]
          intro hh
          injection hh with hh2
          omega
        · rw [lookup_mapInsert_ne _ _ _ _ hq2]
          exact hb q2
      · show c < S.nextChan + 1
        omega
  | producerEmit c2 line => exact ⟨ha, hb, hcn, hr⟩
  | contLookup q =>
      cases hl : mapLookup S.activeStreamChans q with
      | none =>
          have hstep : sysStep S (SysAction.contLookup q) = S := by
            simp only [sysStep, hl]
          rw [hstep]
          exact ⟨ha, hb, hcn, hr⟩
      | some c2 =>
          have hc2 : ¬ c2 = c := fun hh => hb q (hh ▸ hl)
          have hstep : sysStep S (SysAction.contLookup q)
              = { S with readers := S.readers ++ [c2] } := by
            simp only [sysStep, hl]
          rw [hstep]
          refine ⟨ha, hb, hcn, ?_⟩
          intro r hrr
          rcases List.mem_append.mp hrr with hin | hnew
          · exact hr r hin
          · rcases List.mem_singleton.mp hnew with rfl
            exact Or.inr hc2
  | contReceive k =>
      cases hg : S.readers.get? k with
      | none =>
          have hstep : sysStep S (SysAction.contReceive k) = S := by
            simp only [sysStep, hg]
          rw [hstep]
          exact ⟨ha, hb, hcn, hr⟩
      | some c2 =>
          cases hf : S.channels.find? (fun ch => ch.id == c2) with
          | none =>
              have hstep : sysStep S (SysAction.contReceive k) = S := by
                simp only [sysStep, hg, hf]
              rw [hstep]
              exact ⟨ha, hb, hcn, hr⟩
          | some ch =>
              cases hbuf : ch.buffer with
              | nil =>
                  have hstep : sysStep S (SysAction.contReceive k) = S := by
                    simp only [sysStep, hg, hf, hbuf]
                  rw [hstep]
                  exact ⟨ha, hb, hcn, hr⟩
              | cons m rest =>
                  have hstep : sysStep S (SysAction.contReceive k)
                      = { S with
                          readers := S.readers.eraseIdx k
                          channels := S.channels.map (fun x =>
                            if x.id == c2 then { x with buffer := rest } else x)
                          inflight := S.inflight ++ [m] } := by
                    simp only [sysStep, hg, hf, hbuf]
                  rw [hstep]
                  refine ⟨ha, hb, hcn, ?_⟩
                  intro r hrr
                  exact hr r (List.mem_of_mem_eraseIdx hrr)
  | reduce k =>
      have hfields : (sysStep S (SysAction.reduce k)).activeStreamChans
            = S.activeStreamChans ∧
          (sysStep S (SysAction.reduce k)).nextChan = S.nextChan ∧
          (sysStep S (SysAction.reduce k)).readers = S.readers := by
        refine ⟨?_, ?_, ?_⟩
        · simp only [sysStep]
          repeat' split
          all_goals rfl
        · simp only [sysStep]
          repeat' split
          all_goals rfl
        · simp only [sysStep]
          repeat' split
          all_goals rfl
      refine ⟨by rw [hfields.1]; exact ha, ?_, by rw [hfields.2.1]; exact hcn, ?_⟩
      · intro q
        rw [hfields.1]
        exact hb q
      · rw [hfields.2.2]
        exact hr

/-- When *no* pending reader holds the superseded channel `c`, one step
keeps it that way and the buffer of `c` is only ever extended at its tail,
never consumed: a receive always dequeues from its reader's captured
channel, which is then never `c`. -/
theorem sysStep_buffer (S : StreamSys) (act : SysAction) (p c cNew : Nat)
    (hact : ¬ act = SysAction.startLogStream p)
    (ha : mapLookup S.activeStreamChans p = some cNew)
    (hb : ∀ q, ¬ mapLookup S.activeStreamChans q = some c)
    (hcn : c < S.nextChan)
    (hronly : ∀ r ∈ S.readers, ¬ r = c) :
    (∀ r ∈ (sysStep S act).readers, ¬ r = c) ∧
    bufferOf S c <+: bufferOf (sysStep S act) c := by
  cases act with
  | startLogStream q =>
      refine ⟨hronly, ?_⟩
      show bufferOf S c <+: bufferOf
        { S with
          nextChan := S.nextChan + 1
          activeStreamChans := mapInsert S.activeStreamChans q S.nextChan
          channels := S.channels ++ [⟨S.nextChan, q, []⟩] } c
      unfold bufferOf
      dsimp only
      rw [List.find?_append]
      have hnone : (([⟨S.nextChan, q, []⟩] : List ChanState).find?
          (fun ch => ch.id == c)) = none := by
        have hne : (S.nextChan == c) = false :=
          beq_eq_false_iff_ne.mpr (by omega)
        simp [List.find?_cons, hne]
      rw [hnone]
      cases hf : S.channels.find? (fun ch => ch.id == c) <;> simp
  | producerEmit c2 line =>
      refine ⟨hronly, ?_⟩
      show bufferOf S c <+: bufferOf
        { S with channels := S.channels.map (fun ch =>
            if ch.id == c2 then
              { ch with buffer := ch.buffer ++ [Msg.LogLineMsg ch.paneIndex line] }
            else ch) } c
      unfold bufferOf
      dsimp only
      rw [find_id_map _ c _ (fun ch => by split <;> rfl)]
      cases hf : S.channels.find? (fun ch => ch.id == c) with
      | none => exact List.nil_prefix
      | some ch =>
          show ch.buffer <+:
            (if ch.id == c2 then
              { ch with buffer := ch.buffer ++ [Msg.LogLineMsg ch.paneIndex line] }
            else ch).buffer
          by_cases hcc : (ch.id == c2) = true
          · rw [hcc]
            exact List.prefix_append _ _
          · rw [Bool.not_eq_true] at hcc
            rw [hcc]
            exact List.prefix_refl _
  | contLookup q =>
      cases hl : mapLookup S.activeStreamChans q with
      | none =>
          have hstep : sysStep S (SysAction.contLookup q) = S := by
            simp only [sysStep, hl]
          rw [hstep]
          exact ⟨hronly, List.prefix_refl _⟩
      | some c2 =>
          have hc2 : ¬ c2 = c := fun hh => hb q (hh ▸ hl)
          have hstep : sysStep S (SysAction.contLookup q)
              = { S with readers := S.readers ++ [c2] } := by
            simp only [sysStep, hl]
          rw [hstep]
          refine ⟨?_, List.prefix_refl _⟩
          intro r hrr
          rcases List.mem_append.mp hrr with hin | hnew
          · exact hronly r hin
          · rcases List.mem_singleton.mp hnew with rfl
            exact hc2
  | contReceive k =>
      cases hg : S.readers.get? k with
      | none =>
          have hstep : sysStep S (SysAction.contReceive k) = S := by
            simp only [sysStep, hg]
          rw [hstep]
          exact ⟨hronly, List.prefix_refl _⟩
      | some c2 =>
          have hc2 : ¬ c2 = c := by
            have hmem : c2 ∈ S.readers := by
              have := List.get?_eq_some.mp hg
              obtain ⟨hlt, hget⟩ := this
              exact hget ▸ List.get_mem _ _ _
            exact hronly c2 hmem
          cases hf : S.channels.find? (fun ch => ch.id == c2) with
          | none =>
              have hstep : sysStep S (SysAction.contReceive k) = S := by
                simp only [sysStep, hg, hf]
              rw [hstep]
              exact ⟨hronly, List.prefix_refl _⟩
          | some ch =>
              cases hbuf : ch.buffer with
              | nil =>
                  have hstep : sysStep S (SysAction.contReceive k) = S := by
                    simp only [sysStep, hg, hf, hbuf]
                  rw [hstep]
                  exact ⟨hronly, List.prefix_refl _⟩
              | cons m rest =>
                  have hstep : sysStep S (SysAction.contReceive k)
                      = { S with
                          readers := S.readers.eraseIdx k
                          channels := S.channels.map (fun x =>
                            if x.id == c2 then { x with buffer := rest } else x)
                          inflight := S.inflight ++ [m] } := by
                    simp only [sysStep, hg, hf, hbuf]
                  rw [hstep]
                  refine ⟨?_, ?_⟩
                  · intro r hrr
                    exact hronly r (List.mem_of_mem_eraseIdx hrr)
                  · unfold bufferOf
                    dsimp only
                    rw [find_id_map _ c _ (fun x => by split <;> rfl)]
                    cases hfc : S.channels.find? (fun x => x.id == c) with
                    | none => exact List.nil_prefix
                    | some chc =>
                        have hidc : (chc.id == c) = true := by
                          have := List.find?_some hfc
                          simpa using this
                        have hne : (chc.id == c2) = false := by
                          rw [beq_eq_false_iff_ne]
                          intro hh
                          rw [beq_iff_eq] at hidc
                          exact hc2 (by rw [← hh, hidc])
                        show chc.buffer <+:
                          (if chc.id == c2 then { chc with buffer := rest }
                            else chc).buffer
                        rw [hne]
                        exact List.prefix_refl _
  | reduce k =>
      have hfields : (sysStep S (SysAction.reduce k)).readers = S.readers ∧
          (sysStep S (SysAction.reduce k)).channels = S.channels := by
        constructor
        · simp only [sysStep]
          repeat' split
          all_goals rfl
        · simp only [sysStep]
          repeat' split
          all_goals rfl
      refine ⟨by rw [hfields.1]; exact hronly, ?_⟩
      unfold bufferOf
      rw [hfields.2]

theorem sysRun_frame (post : List SysAction) (p c cNew : Nat) (R0 : List Nat)
    (hpost : ∀ act ∈ post, ¬ act = SysAction.startLogStream p) :
    ∀ S : StreamSys,
      mapLookup S.activeStreamChans p = some cNew →
      (∀ q, ¬ mapLookup S.activeStreamChans q = some c) →
      c < S.nextChan →
      (∀ r ∈ S.readers, r ∈ R0 ∨ ¬ r = c) →
      mapLookup (sysRun S post).activeStreamChans p = some cNew ∧
      (∀ q, ¬ mapLookup (sysRun S post).activeStreamChans q = some c) ∧
      c < (sysRun S post).nextChan ∧
      (∀ r ∈ (sysRun S post).readers, r ∈ R0 ∨ ¬ r = c) := by
  induction post with
  | nil => intro S ha hb hcn hr; exact ⟨ha, hb, hcn, hr⟩
  | cons act rest ih =>
      intro S ha hb hcn hr
      have hact : ¬ act = SysAction.startLogStream p :=
        hpost act (List.mem_cons_self act rest)
      have hrest : ∀ a ∈ rest, ¬ a = SysAction.startLogStream p :=
        fun a haa => hpost a (List.mem_cons_of_mem act haa)
      obtain ⟨s1, s2, s3, s4⟩ := sysStep_frame S act p c cNew R0 hact ha hb hcn hr
      exact ih hrest (sysStep S act) s1 s2 s3 s4

theorem sysRun_buffer (post : List SysAction) (p c cNew : Nat)
    (hpost : ∀ act ∈ post, ¬ act = SysAction.startLogStream p) :
    ∀ S : StreamSys,
      mapLookup S.activeStreamChans p = some cNew →
      (∀ q, ¬ mapLookup S.activeStreamChans q = some c) →
      c < S.nextChan →
      (∀ r ∈ S.readers, ¬ r = c) →
      bufferOf S c <+: bufferOf (sysRun S post) c := by
  induction post with
  | nil => intro S _ _ _ _; exact List.prefix_refl _
  | cons act rest ih =>
      intro S ha hb hcn hronly
      have hact : ¬ act = SysAction.startLogStream p :=
        hpost act (List.mem_cons_self act rest)
      have hrest : ∀ a ∈ rest, ¬ a = SysAction.startLogStream p :=
        fun a haa => hpost a (List.mem_cons_of_mem act haa)
      obtain ⟨s1, s2, s3, _⟩ := sysStep_frame S act p c cNew [] hact ha hb hcn
        (fun r hrr => Or.inr (hronly r hrr))
      obtain ⟨b1, b2⟩ := sysStep_buffer S act p c cNew hact ha hb hcn hronly
      exact b2.trans (ih hrest (sysStep S act) s1 s2 s3 b1)

/-- A `continueLogStreamCmd` lookup that runs while pane `p`'s active
channel is `c` registers a pending reader of exactly `c`. -/
theorem contLookup_readers (S : StreamSys) (p c : Nat)
    (h : mapLookup S.activeStreamChans p = some c) :
    (sysStep S (SysAction.contLookup p)).readers = S.readers ++ [c] := by
  simp only [sysStep, h]

/-- **C5** (amended, confirmed).  After `startLogStreamForClientCmd` is
called a second time for pane `p`, and as long as `p` is not restarted
again: the new channel stays installed as `activeStreamChans[p]`; the
superseded channel `c` is active for no pane; a `continueLogStreamCmd(p)`
that executes its *lookup* (`ch := activeStreamChans[paneIndex]`) after the
second call captures the new channel, never `c` — so every pending receive
still targeting `c` is one whose lookup ran before the restart; and when no
such pre-restart receive is pending, the lines still buffered in `c` stay
there untouched (its buffer is only ever extended), so they are never
handed to the update loop.  There is *no* generation tagging, and the
guarantee is only this: a stale line already in flight, or delivered by a
receive that captured the superseded channel before the restart, is still
applied to the pane (see the counterexample). -/
theorem stream_restart_installs_new_channel (pre post mid : List SysAction)
    (p c : Nat)
    (hpost : ∀ act ∈ post, ¬ act = SysAction.startLogStream p)
    (hmid : ∀ act ∈ mid, ¬ act = SysAction.startLogStream p)
    (hold : mapLookup (sysRun sysInit pre).activeStreamChans p = some c) :
    mapLookup (sysRun (sysStep (sysRun sysInit pre)
        (SysAction.startLogStream p)) post).activeStreamChans p
      = some (sysRun sysInit pre).nextChan ∧
    ¬ c = (sysRun sysInit pre).nextChan ∧
    (∀ q, ¬ mapLookup (sysRun (sysStep (sysRun sysInit pre)
        (SysAction.startLogStream p)) post).activeStreamChans q = some c) ∧
    (∀ r, r ∈ (sysRun (sysStep (sysRun sysInit pre)
        (SysAction.startLogStream p)) post).readers →
      r ∈ (sysStep (sysRun sysInit pre)
        (SysAction.startLogStream p)).readers ∨ ¬ r = c) ∧
    (sysStep (sysRun (sysStep (sysRun sysInit pre)
        (SysAction.startLogStream p)) mid) (SysAction.contLookup p)).readers
      = (sysRun (sysStep (sysRun sysInit pre)
        (SysAction.startLogStream p)) mid).readers
        ++ [(sysRun sysInit pre).nextChan] ∧
    ((∀ r ∈ (sysStep (sysRun sysInit pre)
        (SysAction.startLogStream p)).readers, ¬ r = c) →
      bufferOf (sysStep (sysRun sysInit pre)
        (SysAction.startLogStream p)) c
        <+: bufferOf (sysRun (sysStep (sysRun sysInit pre)
          (SysAction.startLogStream p)) post) c) := by
  obtain ⟨hbound, hinj⟩ := sysRun_inv pre sysInit sysInit_inv
  have hclt : c < (sysRun sysInit pre).nextChan := hbound p c hold
  have h1 : mapLookup (sysStep (sysRun sysInit pre)
      (SysAction.startLogStream p)).activeStreamChans p
      = some (sysRun sysInit pre).nextChan := by
    show mapLookup (mapInsert (sysRun sysInit pre).activeStreamChans p
        (sysRun sysInit pre).nextChan) p = some (sysRun sysInit pre).nextChan
    exact lookup_mapInsert_self _ _ _
  have h2 : ∀ q, ¬ mapLookup (sysStep (sysRun sysInit pre)
      (SysAction.startLogStream p)).activeStreamChans q = some c := by
    intro q
    show ¬ mapLookup (mapInsert (sysRun sysInit pre).activeStreamChans p
        (sysRun sysInit pre).nextChan) q = some c
    by_cases hq : q = p
    · subst hq
      rw [lookup_mapInsert_self]
      intro hh
      injection hh with hh2
      omega
    · rw [lookup_mapInsert_ne _ _ _ _ hq]
      intro hh
      exact hq (hinj q p c hh hold)
  have h3 : c < (sysStep (sysRun sysInit pre)
      (SysAction.startLogStream p)).nextChan := by
    show c < (sysRun sysInit pre).nextChan + 1
    omega
  have hr0 : ∀ r ∈ (sysStep (sysRun sysInit pre)
      (SysAction.startLogStream p)).readers,
      r ∈ (sysStep (sysRun sysInit pre)
        (SysAction.startLogStream p)).readers ∨ ¬ r = c :=
    fun r hrr => Or.inl hrr
  obtain ⟨r1, r2, r3, r4⟩ := sysRun_frame post p c
    ((sysRun sysInit pre).nextChan) _ hpost _ h1 h2 h3 hr0
  obtain ⟨m1, _, _, _⟩ := sysRun_frame mid p c
    ((sysRun sysInit pre).nextChan) _ hmid _ h1 h2 h3 hr0
  refine ⟨r1, by omega, r2, r4, ?_, ?_⟩
  · exact contLookup_readers _ p _ m1
  · intro hronly
    exact sysRun_buffer post p c ((sysRun sysInit pre).nextChan) hpost _
      h1 h2 h3 hronly

/-- Witness for the amended C5: pane 0's stream (channel 0, one buffered
line) is restarted with no receive pending; afterwards the new channel 1
stays installed for pane 0, a post-restart lookup captures channel 1, and
channel 0's buffer is untouched. -/
theorem stream_restart_installs_new_channel_witness :
    mapLookup (sysRun (sysStep (sysRun sysInit
        [SysAction.startLogStream 0, SysAction.producerEmit 0 "old"])
        (SysAction.startLogStream 0))
        [SysAction.producerEmit 1 "new", SysAction.contLookup 0,
         SysAction.contReceive 0, SysAction.reduce 0]).activeStreamChans 0
      = some (sysRun sysInit
        [SysAction.startLogStream 0,
         SysAction.producerEmit 0 "old"]).nextChan ∧
    ¬ (0 : Nat) = (sysRun sysInit
        [SysAction.startLogStream 0,
         SysAction.producerEmit 0 "old"]).nextChan ∧
    (∀ q, ¬ mapLookup (sysRun (sysStep (sysRun sysInit
        [SysAction.startLogStream 0, SysAction.producerEmit 0 "old"])
        (SysAction.startLogStream 0))
        [SysAction.producerEmit 1 "new", SysAction.contLookup 0,
         SysAction.contReceive 0, SysAction.reduce 0]).activeStreamChans q
      = some 0) ∧
    (∀ r, r ∈ (sysRun (sysStep (sysRun sysInit
        [SysAction.startLogStream 0, SysAction.producerEmit 0 "old"])
        (SysAction.startLogStream 0))
        [SysAction.producerEmit 1 "new", SysAction.contLookup 0,
         SysAction.contReceive 0, SysAction.reduce 0]).readers →
      r ∈ (sysStep (sysRun sysInit
        [SysAction.startLogStream 0, SysAction.producerEmit 0 "old"])
        (SysAction.startLogStream 0)).readers ∨ ¬ r = 0) ∧
    (sysStep (sysRun (sysStep (sysRun sysInit
        [SysAction.startLogStream 0, SysAction.producerEmit 0 "old"])
        (SysAction.startLogStream 0)) [SysAction.producerEmit 1 "x"])
        (SysAction.contLookup 0)).readers
      = (sysRun (sysStep (sysRun sysInit
        [SysAction.startLogStream 0, SysAction.producerEmit 0 "old"])
        (SysAction.startLogStream 0)) [SysAction.producerEmit 1 "x"]).readers
        ++ [(sysRun sysInit
          [SysAction.startLogStream 0,
           SysAction.producerEmit 0 "old"]).nextChan] ∧
    ((∀ r ∈ (sysStep (sysRun sysInit
        [SysAction.startLogStream 0, SysAction.producerEmit 0 "old"])
        (SysAction.startLogStream 0)).readers, ¬ r = 0) →
      bufferOf (sysStep (sysRun sysInit
        [SysAction.startLogStream 0, SysAction.producerEmit 0 "old"])
        (SysAction.startLogStream 0)) 0
        <+: bufferOf (sysRun (sysStep (sysRun sysInit
          [SysAction.startLogStream 0, SysAction.producerEmit 0 "old"])
          (SysAction.startLogStream 0))
          [SysAction.producerEmit 1 "new", SysAction.contLookup 0,
           SysAction.contReceive 0, SysAction.reduce 0]) 0) :=
  stream_restart_installs_new_channel
    [SysAction.startLogStream 0, SysAction.producerEmit 0 "old"]
    [SysAction.producerEmit 1 "new", SysAction.contLookup 0,
     SysAction.contReceive 0, SysAction.reduce 0]
    [SysAction.producerEmit 1 "x"] 0 0
    (by decide) (by decide) (by decide)

end KT
